import Mathlib

/-! # frpc bootstrap (`cmd/frpc/sub/root.go`): a shallow embedding

The Go file `cmd/frpc/sub/root.go` decodes an encrypted server-address
payload (`AESCBCDecrypt`, `PKCS7Unpad`), resolves a client configuration
(`runClient`), starts the client service (`startService`) and, in directory
mode, starts one client per file (`runMultipleClients`).

Conventions of the embedding:

* a Go `string` / `[]byte` is a list of bytes (`GoString`), a byte is `Fin 256`;
* a Go `int` is an `Int` (the `strconv.Atoi` model enforces the 64-bit range);
* a Go `error` result is `Option GoError` (`none` is `nil`);
* a run-time panic is an explicit outcome (`Outcome.panic`);
* the standard-library functions the file calls (`encoding/base64`,
  `crypto/aes`, `crypto/cipher`, `strconv`, `strings`) are modelled from their
  documented behaviour (RFC 4648, FIPS-197, SP 800-38A);
* the collaborators that live in other packages (`config.ParseClientConfig`,
  `client.NewService`, `Service.Run`, `myutil.RandStr`) are parameters.
-/

namespace Frpc

set_option linter.unusedVariables false

/-! ## Bytes, strings, errors, outcomes -/

/-- A Go `byte`. -/
abbrev Byte := Fin 256

/-- A Go `string` or `[]byte`: a finite sequence of bytes. -/
abbrev GoString := List Byte

/-- The bytes of a string literal (its UTF-8 encoding, as in Go source). -/
def str (s : String) : GoString :=
  s.toList.flatMap fun c => (String.utf8EncodeChar c).map fun b => b.val

/-- The two kinds of `*strconv.NumError`. -/
inductive NumErrKind
  | syntaxErr
  | rangeErr
  deriving DecidableEq, Repr

/-- Go `error` values that occur in `root.go`. -/
inductive GoError
  /-- The error made by `fmt.Errorf(msg)`. -/
  | errorf (msg : String)
  /-- A `base64.CorruptInputError` (the offset is not modelled). -/
  | corruptInput
  /-- The error `aes.KeySizeError(k)`. -/
  | keySize (k : Nat)
  /-- A `*strconv.NumError` with `Func = "Atoi"` and `Num = num`. -/
  | numError (num : GoString) (kind : NumErrKind)
  /-- An error produced by a collaborator outside this file. -/
  | external (tag : String)
  deriving DecidableEq, Repr

deriving instance DecidableEq for Except

/-- The way a Go call ends: it returns a value, or it panics. -/
inductive Outcome (α : Type)
  | ret (a : α)
  | panic (msg : String)
  deriving DecidableEq, Repr

/-! ## `encoding/base64`, standard alphabet with padding -/

/-- The 6-bit value of a character of the standard alphabet
(`A-Z`, `a-z`, `0-9`, `+`, `/`), `none` for any other byte. -/
def b64Value (c : Byte) : Option Nat :=
  if 65 ≤ c.val ∧ c.val ≤ 90 then some (c.val - 65)
  else if 97 ≤ c.val ∧ c.val ≤ 122 then some (c.val - 71)
  else if 48 ≤ c.val ∧ c.val ≤ 57 then some (c.val + 4)
  else if c.val = 43 then some 62
  else if c.val = 47 then some 63
  else none

/-- The padding character `=`. -/
def b64Pad : Byte := 61

/-- Decoding of the quanta (groups of four characters) of an input from which
the ignored `\r` and `\n` have been removed. A padded quantum must be the
last one; an incomplete quantum or a foreign character is corrupt input. -/
def decodeQuanta : List Byte → Option (List Byte)
  | [] => some []
  | c1 :: c2 :: c3 :: c4 :: rest =>
    match b64Value c1, b64Value c2 with
    | some v1, some v2 =>
      if c3 = b64Pad then
        if c4 = b64Pad ∧ rest = [] then
          some [Fin.ofNat ((v1 * 2 ^ 18 + v2 * 2 ^ 12) / 2 ^ 16)]
        else none
      else
        match b64Value c3 with
        | none => none
        | some v3 =>
          if c4 = b64Pad then
            if rest = [] then
              let val := v1 * 2 ^ 18 + v2 * 2 ^ 12 + v3 * 2 ^ 6
              some [Fin.ofNat (val / 2 ^ 16), Fin.ofNat (val / 2 ^ 8)]
            else none
          else
            match b64Value c4 with
            | none => none
            | some v4 =>
              let val := v1 * 2 ^ 18 + v2 * 2 ^ 12 + v3 * 2 ^ 6 + v4
              match decodeQuanta rest with
              | none => none
              | some out =>
                some (Fin.ofNat (val / 2 ^ 16) :: Fin.ofNat (val / 2 ^ 8) :: Fin.ofNat val :: out)
    | _, _ => none
  | _ => none

/-- The model of `base64.StdEncoding.DecodeString`: carriage returns and line feeds are
skipped, then the quanta are decoded. -/
def base64.DecodeString (s : GoString) : Except GoError (List Byte) :=
  match decodeQuanta (s.filter fun c => c ≠ 13 ∧ c ≠ 10) with
  | some out => .ok out
  | none => .error .corruptInput

/-- The character of the standard alphabet for a 6-bit value. -/
def b64Char (v : Nat) : Byte :=
  if v < 26 then Fin.ofNat (v + 65)
  else if v < 52 then Fin.ofNat (v + 71)
  else if v < 62 then Fin.ofNat (v - 4)
  else if v = 62 then 43
  else 47

/-- The model of `base64.StdEncoding.EncodeToString` (RFC 4648 §4): the encoder that
produces the payloads `AESCBCDecrypt` reads. -/
def base64.EncodeToString : List Byte → GoString
  | [] => []
  | [a] => [b64Char (a.val / 4), b64Char (a.val % 4 * 16), b64Pad, b64Pad]
  | [a, b] =>
    [b64Char (a.val / 4), b64Char (a.val % 4 * 16 + b.val / 16), b64Char (b.val % 16 * 4), b64Pad]
  | a :: b :: c :: rest =>
    b64Char (a.val / 4) :: b64Char (a.val % 4 * 16 + b.val / 16) ::
      b64Char (b.val % 16 * 4 + c.val / 64) :: b64Char (c.val % 64) ::
      base64.EncodeToString rest

/-! ## `crypto/aes`: the AES block cipher (FIPS-197) -/

/-- The AES substitution table (FIPS-197, figure 7): row `x` and column `y`
hold the value for the byte `xy` (high nibble `x`, low nibble `y`). -/
def sboxTable : List (List Nat) :=
  [[0x63, 0x7c, 0x77, 0x7b, 0xf2, 0x6b, 0x6f, 0xc5, 0x30, 0x01, 0x67, 0x2b, 0xfe, 0xd7, 0xab, 0x76],
   [0xca, 0x82, 0xc9, 0x7d, 0xfa, 0x59, 0x47, 0xf0, 0xad, 0xd4, 0xa2, 0xaf, 0x9c, 0xa4, 0x72, 0xc0],
   [0xb7, 0xfd, 0x93, 0x26, 0x36, 0x3f, 0xf7, 0xcc, 0x34, 0xa5, 0xe5, 0xf1, 0x71, 0xd8, 0x31, 0x15],
   [0x04, 0xc7, 0x23, 0xc3, 0x18, 0x96, 0x05, 0x9a, 0x07, 0x12, 0x80, 0xe2, 0xeb, 0x27, 0xb2, 0x75],
   [0x09, 0x83, 0x2c, 0x1a, 0x1b, 0x6e, 0x5a, 0xa0, 0x52, 0x3b, 0xd6, 0xb3, 0x29, 0xe3, 0x2f, 0x84],
   [0x53, 0xd1, 0x00, 0xed, 0x20, 0xfc, 0xb1, 0x5b, 0x6a, 0xcb, 0xbe, 0x39, 0x4a, 0x4c, 0x58, 0xcf],
   [0xd0, 0xef, 0xaa, 0xfb, 0x43, 0x4d, 0x33, 0x85, 0x45, 0xf9, 0x02, 0x7f, 0x50, 0x3c, 0x9f, 0xa8],
   [0x51, 0xa3, 0x40, 0x8f, 0x92, 0x9d, 0x38, 0xf5, 0xbc, 0xb6, 0xda, 0x21, 0x10, 0xff, 0xf3, 0xd2],
   [0xcd, 0x0c, 0x13, 0xec, 0x5f, 0x97, 0x44, 0x17, 0xc4, 0xa7, 0x7e, 0x3d, 0x64, 0x5d, 0x19, 0x73],
   [0x60, 0x81, 0x4f, 0xdc, 0x22, 0x2a, 0x90, 0x88, 0x46, 0xee, 0xb8, 0x14, 0xde, 0x5e, 0x0b, 0xdb],
   [0xe0, 0x32, 0x3a, 0x0a, 0x49, 0x06, 0x24, 0x5c, 0xc2, 0xd3, 0xac, 0x62, 0x91, 0x95, 0xe4, 0x79],
   [0xe7, 0xc8, 0x37, 0x6d, 0x8d, 0xd5, 0x4e, 0xa9, 0x6c, 0x56, 0xf4, 0xea, 0x65, 0x7a, 0xae, 0x08],
   [0xba, 0x78, 0x25, 0x2e, 0x1c, 0xa6, 0xb4, 0xc6, 0xe8, 0xdd, 0x74, 0x1f, 0x4b, 0xbd, 0x8b, 0x8a],
   [0x70, 0x3e, 0xb5, 0x66, 0x48, 0x03, 0xf6, 0x0e, 0x61, 0x35, 0x57, 0xb9, 0x86, 0xc1, 0x1d, 0x9e],
   [0xe1, 0xf8, 0x98, 0x11, 0x69, 0xd9, 0x8e, 0x94, 0x9b, 0x1e, 0x87, 0xe9, 0xce, 0x55, 0x28, 0xdf],
   [0x8c, 0xa1, 0x89, 0x0d, 0xbf, 0xe6, 0x42, 0x68, 0x41, 0x99, 0x2d, 0x0f, 0xb0, 0x54, 0xbb, 0x16]]

/-- The inverse substitution table (FIPS-197, figure 14), laid out the same
way. -/
def invSboxTable : List (List Nat) :=
  [[0x52, 0x09, 0x6a, 0xd5, 0x30, 0x36, 0xa5, 0x38, 0xbf, 0x40, 0xa3, 0x9e, 0x81, 0xf3, 0xd7, 0xfb],
   [0x7c, 0xe3, 0x39, 0x82, 0x9b, 0x2f, 0xff, 0x87, 0x34, 0x8e, 0x43, 0x44, 0xc4, 0xde, 0xe9, 0xcb],
   [0x54, 0x7b, 0x94, 0x32, 0xa6, 0xc2, 0x23, 0x3d, 0xee, 0x4c, 0x95, 0x0b, 0x42, 0xfa, 0xc3, 0x4e],
   [0x08, 0x2e, 0xa1, 0x66, 0x28, 0xd9, 0x24, 0xb2, 0x76, 0x5b, 0xa2, 0x49, 0x6d, 0x8b, 0xd1, 0x25],
   [0x72, 0xf8, 0xf6, 0x64, 0x86, 0x68, 0x98, 0x16, 0xd4, 0xa4, 0x5c, 0xcc, 0x5d, 0x65, 0xb6, 0x92],
   [0x6c, 0x70, 0x48, 0x50, 0xfd, 0xed, 0xb9, 0xda, 0x5e, 0x15, 0x46, 0x57, 0xa7, 0x8d, 0x9d, 0x84],
   [0x90, 0xd8, 0xab, 0x00, 0x8c, 0xbc, 0xd3, 0x0a, 0xf7, 0xe4, 0x58, 0x05, 0xb8, 0xb3, 0x45, 0x06],
   [0xd0, 0x2c, 0x1e, 0x8f, 0xca, 0x3f, 0x0f, 0x02, 0xc1, 0xaf, 0xbd, 0x03, 0x01, 0x13, 0x8a, 0x6b],
   [0x3a, 0x91, 0x11, 0x41, 0x4f, 0x67, 0xdc, 0xea, 0x97, 0xf2, 0xcf, 0xce, 0xf0, 0xb4, 0xe6, 0x73],
   [0x96, 0xac, 0x74, 0x22, 0xe7, 0xad, 0x35, 0x85, 0xe2, 0xf9, 0x37, 0xe8, 0x1c, 0x75, 0xdf, 0x6e],
   [0x47, 0xf1, 0x1a, 0x71, 0x1d, 0x29, 0xc5, 0x89, 0x6f, 0xb7, 0x62, 0x0e, 0xaa, 0x18, 0xbe, 0x1b],
   [0xfc, 0x56, 0x3e, 0x4b, 0xc6, 0xd2, 0x79, 0x20, 0x9a, 0xdb, 0xc0, 0xfe, 0x78, 0xcd, 0x5a, 0xf4],
   [0x1f, 0xdd, 0xa8, 0x33, 0x88, 0x07, 0xc7, 0x31, 0xb1, 0x12, 0x10, 0x59, 0x27, 0x80, 0xec, 0x5f],
   [0x60, 0x51, 0x7f, 0xa9, 0x19, 0xb5, 0x4a, 0x0d, 0x2d, 0xe5, 0x7a, 0x9f, 0x93, 0xc9, 0x9c, 0xef],
   [0xa0, 0xe0, 0x3b, 0x4d, 0xae, 0x2a, 0xf5, 0xb0, 0xc8, 0xeb, 0xbb, 0x3c, 0x83, 0x53, 0x99, 0x61],
   [0x17, 0x2b, 0x04, 0x7e, 0xba, 0x77, 0xd6, 0x26, 0xe1, 0x69, 0x14, 0x63, 0x55, 0x21, 0x0c, 0x7d]]

/-- The S-box applied to one byte. -/
def sbox (x : Byte) : Byte :=
  Fin.ofNat ((sboxTable.getD (x.val / 16) []).getD (x.val % 16) 0)

/-- The inverse S-box applied to one byte. -/
def invSbox (x : Byte) : Byte :=
  Fin.ofNat ((invSboxTable.getD (x.val / 16) []).getD (x.val % 16) 0)

/-- Multiplication by `x` in GF(2^8) modulo `x^8 + x^4 + x^3 + x + 1`, on the
natural number of a byte: shift left, and reduce by `0x1b` when bit 7 was set. -/
def xtimeNat (x : Nat) : Nat :=
  ((2 * x) % 256) ^^^ (if x / 128 % 2 = 1 then 27 else 0)

/-- Multiplication by `{02}` in GF(2^8). -/
def xtime (x : Byte) : Byte := Fin.ofNat (xtimeNat x.val)

/-- Multiplication by `{03}`. -/
def mul3 (x : Byte) : Byte := xtime x ^^^ x

/-- Multiplication by `{09}`. -/
def mul9 (x : Byte) : Byte := xtime (xtime (xtime x)) ^^^ x

/-- Multiplication by `{0b}`. -/
def mul11 (x : Byte) : Byte := xtime (xtime (xtime x)) ^^^ xtime x ^^^ x

/-- Multiplication by `{0d}`. -/
def mul13 (x : Byte) : Byte := xtime (xtime (xtime x)) ^^^ xtime (xtime x) ^^^ x

/-- Multiplication by `{0e}`. -/
def mul14 (x : Byte) : Byte := xtime (xtime (xtime x)) ^^^ xtime (xtime x) ^^^ xtime x

/-- Bytewise exclusive or of two byte sequences (up to the shorter one). -/
def xorBytes (a b : List Byte) : List Byte := List.zipWith (fun x y => x ^^^ y) a b

/-- The transformation `SubBytes`. -/
def subBytes (s : List Byte) : List Byte := s.map sbox

/-- The transformation `InvSubBytes`. -/
def invSubBytes (s : List Byte) : List Byte := s.map invSbox

/-- The transformation `ShiftRows` on the 16 bytes of a state held column by column
(byte `r + 4c` is row `r`, column `c`): row `r` is rotated left by `r`. -/
def shiftRows : List Byte → List Byte
  | [a0, a1, a2, a3, a4, a5, a6, a7, a8, a9, a10, a11, a12, a13, a14, a15] =>
    [a0, a5, a10, a15, a4, a9, a14, a3, a8, a13, a2, a7, a12, a1, a6, a11]
  | s => s

/-- The transformation `InvShiftRows`: row `r` is rotated right by `r`. -/
def invShiftRows : List Byte → List Byte
  | [a0, a1, a2, a3, a4, a5, a6, a7, a8, a9, a10, a11, a12, a13, a14, a15] =>
    [a0, a13, a10, a7, a4, a1, a14, a11, a8, a5, a2, a15, a12, a9, a6, a3]
  | s => s

/-- One column of `MixColumns`: multiplication by the matrix
`02 03 01 01 / 01 02 03 01 / 01 01 02 03 / 03 01 01 02`. -/
def mixColumn (a b c d : Byte) : List Byte :=
  [xtime a ^^^ mul3 b ^^^ c ^^^ d,
   a ^^^ xtime b ^^^ mul3 c ^^^ d,
   a ^^^ b ^^^ xtime c ^^^ mul3 d,
   mul3 a ^^^ b ^^^ c ^^^ xtime d]

/-- One column of `InvMixColumns`: multiplication by the matrix
`0e 0b 0d 09 / 09 0e 0b 0d / 0d 09 0e 0b / 0b 0d 09 0e`. -/
def invMixColumn (a b c d : Byte) : List Byte :=
  [mul14 a ^^^ mul11 b ^^^ mul13 c ^^^ mul9 d,
   mul9 a ^^^ mul14 b ^^^ mul11 c ^^^ mul13 d,
   mul13 a ^^^ mul9 b ^^^ mul14 c ^^^ mul11 d,
   mul11 a ^^^ mul13 b ^^^ mul9 c ^^^ mul14 d]

/-- The transformation `MixColumns`: every group of four bytes is one column. -/
def mixColumns : List Byte → List Byte
  | a :: b :: c :: d :: rest => mixColumn a b c d ++ mixColumns rest
  | _ => []

/-- The transformation `InvMixColumns`. -/
def invMixColumns : List Byte → List Byte
  | a :: b :: c :: d :: rest => invMixColumn a b c d ++ invMixColumns rest
  | _ => []

/-- The transformation `AddRoundKey`. -/
def addRoundKey (k s : List Byte) : List Byte := xorBytes s k

/-- The round constant `Rcon[j]` (first byte): `x^(j-1)` in GF(2^8). -/
def rcon : Nat → Byte
  | 0 => 0
  | 1 => 1
  | j + 1 => xtime (rcon j)

/-- The key-expansion loop of FIPS-197 §5.2: `ws` holds the words `w[0..i-1]`
and `fuel` more words are appended. -/
def expandLoop (nk : Nat) : Nat → Nat → List (List Byte) → List (List Byte)
  | 0, _, ws => ws
  | fuel + 1, i, ws =>
    let prev := ws.getD (i - 1) []
    let temp :=
      if i % nk = 0 then
        xorBytes (subBytes (prev.rotateLeft 1)) [rcon (i / nk), 0, 0, 0]
      else if 6 < nk ∧ i % nk = 4 then subBytes prev
      else prev
    expandLoop nk fuel (i + 1) (ws ++ [xorBytes (ws.getD (i - nk) []) temp])

/-- The words of a key: groups of four bytes. -/
def keyWords : List Byte → List (List Byte)
  | a :: b :: c :: d :: rest => [a, b, c, d] :: keyWords rest
  | _ => []

/-- The round keys of a list of words: groups of four words. -/
def roundKeys : List (List Byte) → List (List Byte)
  | a :: b :: c :: d :: rest => (a ++ b ++ c ++ d) :: roundKeys rest
  | _ => []

/-- The model of `aes.NewCipher`: a key of 16, 24 or 32 bytes yields the block cipher,
represented by its `Nr + 1` round keys; any other length is a
`KeySizeError`. -/
def aes.NewCipher (key : List Byte) : Except GoError (List (List Byte)) :=
  let k := key.length
  if k = 16 ∨ k = 24 ∨ k = 32 then
    let nk := k / 4
    .ok (roundKeys (expandLoop nk (4 * (nk + 7) - nk) nk (keyWords key)))
  else .error (.keySize k)

/-- One inner round of the cipher. -/
def encRound (st k : List Byte) : List Byte :=
  addRoundKey k (mixColumns (shiftRows (subBytes st)))

/-- One inner round of the inverse cipher. -/
def decRound (st k : List Byte) : List Byte :=
  invMixColumns (addRoundKey k (invSubBytes (invShiftRows st)))

/-- The cipher of FIPS-197 §5.1 on one 16-byte block, `Block.Encrypt`. -/
def encryptBlock (rks : List (List Byte)) (s : List Byte) : List Byte :=
  let s0 := addRoundKey (rks.headD []) s
  let s1 := (rks.tail.dropLast).foldl encRound s0
  addRoundKey (rks.getLastD []) (shiftRows (subBytes s1))

/-- The inverse cipher of FIPS-197 §5.3 on one 16-byte block, `Block.Decrypt`. -/
def decryptBlock (rks : List (List Byte)) (s : List Byte) : List Byte :=
  let s0 := addRoundKey (rks.getLastD []) s
  let s1 := (rks.tail.dropLast).reverse.foldl decRound s0
  addRoundKey (rks.headD []) (invSubBytes (invShiftRows s1))

/-! ## `crypto/cipher`: CBC mode -/

/-- The AES block size in bytes. -/
def blockSize : Nat := 16

/-- CBC decryption of `n` blocks of `src`: each block is deciphered and xored
with the previous ciphertext block (`prev`, at first the IV). -/
def cbcDecryptBlocks (rks : List (List Byte)) : Nat → List Byte → List Byte → List Byte
  | 0, _, _ => []
  | n + 1, prev, src =>
    let c := src.take blockSize
    xorBytes (decryptBlock rks c) prev ++ cbcDecryptBlocks rks n c (src.drop blockSize)

/-- CBC encryption of `n` blocks of `src` (SP 800-38A §6.2): each block is
xored with the previous ciphertext block and then enciphered. -/
def cbcEncryptBlocks (rks : List (List Byte)) : Nat → List Byte → List Byte → List Byte
  | 0, _, _ => []
  | n + 1, prev, src =>
    let c := encryptBlock rks (xorBytes (src.take blockSize) prev)
    c ++ cbcEncryptBlocks rks n c (src.drop blockSize)

/-- The model of `cipher.NewCBCDecrypter(block, iv)` followed by `CryptBlocks(dst, src)` with
`len(dst) = len(src)`: the call panics when the IV is not one block long or
when `src` is not a whole number of blocks; otherwise it yields the
plaintext. -/
def cipher.CBCDecrypt (rks : List (List Byte)) (iv src : List Byte) : Outcome (List Byte) :=
  if iv.length ≠ blockSize then
    .panic "cipher.NewCBCDecrypter: IV length must equal block size"
  else if src.length % blockSize ≠ 0 then
    .panic "crypto/cipher: input not full blocks"
  else .ret (cbcDecryptBlocks rks (src.length / blockSize) iv src)

/-- The model of `cipher.NewCBCEncrypter(block, iv)` followed by `CryptBlocks` on a whole
number of blocks. -/
def cipher.CBCEncrypt (rks : List (List Byte)) (iv src : List Byte) : List Byte :=
  cbcEncryptBlocks rks (src.length / blockSize) iv src

/-- PKCS#7 padding to the block size: `p = 16 - len % 16` bytes of value `p`. -/
def PKCS7Pad (data : List Byte) : List Byte :=
  let p := blockSize - data.length % blockSize
  data ++ List.replicate p (Fin.ofNat p)

/-! ## `strings` and `strconv` -/

/-- The model of `strings.Split(s, sep)` for a separator of one byte: the pieces of `s`
between the occurrences of `sep` (one more piece than occurrences). -/
def strings.Split : GoString → Byte → List GoString
  | [], _ => [[]]
  | c :: cs, sep =>
    if c = sep then [] :: strings.Split cs sep
    else
      match strings.Split cs sep with
      | [] => [[c]]
      | p :: ps => (c :: p) :: ps

/-- The model of `strings.HasPrefix`. -/
def strings.HasPrefix (s pre : GoString) : Bool := pre.isPrefixOf s

/-- The digit loop of `strconv.ParseUint(s, 10, 64)`: a byte that is not a
decimal digit is a syntax error, a value that leaves 64 bits is a range
error. -/
def parseUintLoop : List Byte → Nat → Except NumErrKind Nat
  | [], n => .ok n
  | c :: cs, n =>
    if ¬ (48 ≤ c.val ∧ c.val ≤ 57) then .error .syntaxErr
    else if n ≥ (2 ^ 64 - 1) / 10 + 1 then .error .rangeErr
    else
      let n1 := n * 10 + (c.val - 48)
      if n1 > 2 ^ 64 - 1 then .error .rangeErr
      else parseUintLoop cs n1

/-- The model of `strconv.Atoi` on a 64-bit platform (`ParseInt(s, 10, 0)`): an optional
sign, then at least one decimal digit, the value within
`[-2^63, 2^63 - 1]`. -/
def strconv.Atoi (s : GoString) : Except GoError Int :=
  match s with
  | [] => .error (.numError s .syntaxErr)
  | c :: cs =>
    let neg : Bool := c = 45
    let digits := if c = 43 ∨ c = 45 then cs else s
    if digits = [] then .error (.numError s .syntaxErr)
    else
      match parseUintLoop digits 0 with
      | .error kind => .error (.numError s kind)
      | .ok un =>
        if ¬ neg ∧ un ≥ 2 ^ 63 then .error (.numError s .rangeErr)
        else if neg ∧ un > 2 ^ 63 then .error (.numError s .rangeErr)
        else .ok (if neg then - (un : Int) else (un : Int))

/-- A base-10 integer literal, in the words of the specification: an optional
sign `+` or `-` followed by one or more decimal digits. -/
def IsBase10Int (s : GoString) : Prop :=
  ∃ digits : GoString, digits ≠ [] ∧ (∀ c ∈ digits, 48 ≤ c.val ∧ c.val ≤ 57) ∧
    (s = digits ∨ s = 43 :: digits ∨ s = 45 :: digits)

/-- The value of a string of decimal digits read after the value `m`. -/
def digitsValue (ds : List Byte) (m : Nat) : Nat :=
  ds.foldl (fun a c => a * 10 + (c.val - 48)) m

/-- The decimal digits of `n`, most significant first, put in front of `acc`
(`fuel` bounds the number of digits). -/
def decimalAux : Nat → Nat → List Byte → List Byte
  | 0, _, acc => acc
  | fuel + 1, n, acc =>
    let acc1 := Fin.ofNat (48 + n % 10) :: acc
    if n / 10 = 0 then acc1 else decimalAux fuel (n / 10) acc1

/-- The decimal rendering of a natural number (`strconv.Itoa` on a non-negative `int`). -/
def decimal (n : Nat) : GoString := decimalAux (n + 1) n []

/-! ## `root.go`: the bootstrap decoder -/

/-- The Go function `PKCS7Unpad` (root.go, lines 356-366). -/
def PKCS7Unpad (data : List Byte) : Except GoError (List Byte) :=
  let length : Int := data.length
  if length = 0 then .error (.errorf "data is empty")
  else
    let unpadding : Int := (data.getD (length - 1).toNat 0).val
    if unpadding > length ∨ unpadding ≤ 0 then .error (.errorf "invalid padding")
    else .ok (data.take (length - unpadding).toNat)

/-- The Go function `AESCBCDecrypt` (root.go, lines 298-344). The result is the four
values the Go function returns, or the panic of `CryptBlocks`. -/
def AESCBCDecrypt (ciphertextBase64 : GoString) :
    Outcome (GoString × Int × Int × Option GoError) :=
  match base64.DecodeString ciphertextBase64 with
  | .error err => .ret ([], 0, 0, some err)
  | .ok ciphertext =>
    let key := str "1234561234561234"
    let iv := str "1234561234561234"
    match aes.NewCipher key with
    | .error err => .ret ([], 0, 0, some err)
    | .ok block =>
      match cipher.CBCDecrypt block iv ciphertext with
      | .panic msg => .panic msg
      | .ret plaintext =>
        match PKCS7Unpad plaintext with
        | .error err => .ret ([], 0, 0, some err)
        | .ok plaintext =>
          let parts := strings.Split plaintext 58
          if parts.length ≠ 3 then
            .ret ([], 0, 0, some (.errorf "invalid plaintext format"))
          else
            let a := parts.getD 0 []
            match strconv.Atoi (parts.getD 1 []) with
            | .error err => .ret ([], 0, 0, some err)
            | .ok b =>
              match strconv.Atoi (parts.getD 2 []) with
              | .error err => .ret ([], 0, 0, some err)
              | .ok c => .ret (a, b, c, none)

/-- The producer of a payload, in the words of the specification (§6, §8): the
standard base64 encoding of the AES-128-CBC encryption, under the key and IV
`1234561234561234` and with PKCS#7 padding, of a plaintext. -/
def specEncryptPayload (plaintext : GoString) : GoString :=
  match aes.NewCipher (str "1234561234561234") with
  | .error _ => []
  | .ok block =>
    base64.EncodeToString
      (cipher.CBCEncrypt block (str "1234561234561234") (PKCS7Pad plaintext))

/-- The validly padded plaintext of a payload: the text that lines 300-326 of
`AESCBCDecrypt` hand to the parsing part (lines 328-343), when the base64
text decodes, the ciphertext is a whole number of blocks and the padding is
valid; `none` otherwise. -/
def payloadText (ciphertextBase64 : GoString) : Option GoString :=
  match base64.DecodeString ciphertextBase64 with
  | .error _ => none
  | .ok ciphertext =>
    match aes.NewCipher (str "1234561234561234") with
    | .error _ => none
    | .ok block =>
      match cipher.CBCDecrypt block (str "1234561234561234") ciphertext with
      | .panic _ => none
      | .ret plaintext =>
        match PKCS7Unpad plaintext with
        | .error _ => none
        | .ok text => some text

/-! ## `root.go`: configuration, collaborators and effects -/

/-- The fields of `config.ClientCommonConf` that `root.go` reads or writes. -/
structure ClientCommonConf where
  ServerAddr : GoString
  ServerPort : Int
  Token : GoString
  Protocol : GoString
  LogWay : GoString
  LogFile : GoString
  LogLevel : GoString
  LogMaxDays : Int
  DisableLogColor : Bool
  deriving DecidableEq, Repr

/-- A `*config.TCPProxyConf`: its `PluginParams` map (a list of key/value pairs)
and the fields `root.go` does not touch. -/
structure TCPProxyConf where
  PluginParams : List (GoString × GoString)
  rest : List (GoString × GoString)
  deriving DecidableEq, Repr

/-- A value of the interface `config.ProxyConf`: a `*config.TCPProxyConf` or a
proxy configuration of another dynamic type. -/
inductive ProxyConf
  | tcp (conf : TCPProxyConf)
  | other (kind : GoString)
  deriving DecidableEq, Repr

/-- A `map[string]config.ProxyConf`, as a list of entries with distinct keys. -/
abbrev ProxyMap := List (GoString × ProxyConf)

/-- A `map[string]config.VisitorConf`; `root.go` only passes it on. -/
abbrev VisitorMap := List (GoString × GoString)

/-- The entry `name` of a proxy map replaced by `v` (a write through the pointer
stored in the map). -/
def ProxyMap.set (m : ProxyMap) (name : GoString) (v : ProxyConf) : ProxyMap :=
  m.map fun e => if e.1 = name then (e.1, v) else e

/-- A `*client.Service`, identified by the arguments it was constructed from. -/
structure Service where
  cfg : ClientCommonConf
  pxyCfgs : ProxyMap
  visitorCfgs : VisitorMap
  cfgFile : GoString
  deriving DecidableEq, Repr

/-- One entry visited by `filepath.WalkDir`: the arguments of the callback. -/
structure WalkEntry where
  path : GoString
  isDir : Bool
  err : Option GoError
  deriving DecidableEq, Repr

/-- The three configuration values `config.ParseClientConfig` returns beside
its error. -/
structure ParsedConfig where
  cfg : ClientCommonConf
  pxyCfgs : ProxyMap
  visitorCfgs : VisitorMap
  deriving DecidableEq, Repr

/-- Whether a call returned (it did not panic). -/
def Outcome.returns {α : Type} : Outcome α → Bool
  | .ret _ => true
  | .panic _ => false

/-- The collaborators of `root.go` that live in other packages or in the
operating system. -/
structure Collaborators where
  /-- The call `config.ParseClientConfig(cfgFilePath, remotePort)`. -/
  ParseClientConfig : GoString → Int → Except GoError ParsedConfig
  /-- The call `client.NewService(cfg, pxyCfgs, visitorCfgs, cfgFile)`: `none` when the
  service is constructed, the construction error otherwise -/
  NewService : Service → Option GoError
  /-- The error `svr.Run(ctx)` returns once the service has stopped. -/
  Run : Service → Option GoError
  /-- The call `myutil.RandStr(n)`: the string drawn by the `k`-th call of a run. -/
  RandStr : Nat → Nat → GoString
  /-- The entries `filepath.WalkDir(cfgDir, fn)` visits, in order, when `fn`
  never asks to skip -/
  walk : GoString → List WalkEntry

/-- The observable actions of `root.go`. -/
inductive Event
  /-- The call `fmt.Println(err)`. -/
  | println (err : GoError)
  /-- A `fmt.Printf` of a formatted line. -/
  | printf (line : GoString)
  /-- A call of `log.Error`. -/
  | logError (msg : GoString)
  /-- A call of `log.Warn` with these arguments. -/
  | logWarn (parts : List GoString)
  /-- A `log.Info` of a formatted line. -/
  | logInfo (msg : GoString)
  /-- The call `os.Remove(path)`. -/
  | remove (path : GoString)
  /-- Entry into `startService` with its four arguments. -/
  | startService (cfg : ClientCommonConf) (pxyCfgs : ProxyMap) (visitorCfgs : VisitorMap)
      (cfgFile : GoString)
  /-- The call `log.InitLog`. -/
  | initLog (logWay logFile logLevel : GoString) (logMaxDays : Int) (disableLogColor : Bool)
  /-- The call of `client.NewService`, which ended with this error. -/
  | newService (svr : Service) (errRet : Option GoError)
  /-- The statement `go handleTermSignal(svr)`. -/
  | goHandleTermSignal (svr : Service)
  /-- The call `svr.Run(ctx)`, which returned this error. -/
  | run (svr : Service) (err : Option GoError)
  deriving DecidableEq, Repr

/-- What a call did and how it ended. -/
structure Trace (α : Type) where
  events : List Event
  result : Outcome α
  deriving DecidableEq, Repr

/-- The Go function `startService` (root.go, lines 261-295). The named result `err` is
assigned only on the construction-failure path; the value of `svr.Run` is
assigned to the blank identifier. -/
def startService (env : Collaborators) (cfg : ClientCommonConf) (pxyCfgs : ProxyMap)
    (visitorCfgs : VisitorMap) (cfgFile : GoString) : Trace (Option GoError) :=
  let entry : List Event :=
    [.startService cfg pxyCfgs visitorCfgs cfgFile,
     .initLog cfg.LogWay cfg.LogFile cfg.LogLevel cfg.LogMaxDays cfg.DisableLogColor]
  let started : GoString :=
    if cfgFile = [] then str "start frpc service for default config file"
    else if strings.HasPrefix cfgFile (str "http://") ∨ strings.HasPrefix cfgFile (str "https://") then
      str "start frpc service for remote config file [" ++ cfgFile ++ str "]"
    else str "start frpc service for local config file [" ++ cfgFile ++ str "]"
  let stopped : GoString :=
    if cfgFile = [] then str "frpc service for default config file stopped"
    else if strings.HasPrefix cfgFile (str "http://") ∨ strings.HasPrefix cfgFile (str "https://") then
      str "frpc service for remote config file [" ++ cfgFile ++ str "] stopped"
    else str "frpc service for local config file [" ++ cfgFile ++ str "] stopped"
  let svr : Service := ⟨cfg, pxyCfgs, visitorCfgs, cfgFile⟩
  match env.NewService svr with
  | some errRet =>
    ⟨entry ++ [.logInfo started, .newService svr (some errRet), .logInfo stopped],
      .ret (some errRet)⟩
  | none =>
    let shouldGracefulClose : Bool := cfg.Protocol = str "kcp" ∨ cfg.Protocol = str "quic"
    let watcher : List Event := if shouldGracefulClose then [.goHandleTermSignal svr] else []
    ⟨entry ++ [.logInfo started, .newService svr none] ++ watcher ++
        [.run svr (env.Run svr), .logInfo stopped],
      .ret none⟩

/-- How the configuration block of `runClient` (lines 228-256) ends: with an
early `return err`, with a panic, or by falling through to `startService`
with the configuration it resolved. -/
inductive Resolved
  | returned (err : GoError)
  | panicked (msg : String)
  | proceed (cfg : ClientCommonConf) (pxyCfgs : ProxyMap)
  deriving DecidableEq, Repr

/-- The Go function `runClient` (root.go, lines 219-259). The type assertion
`pxyCfgs["socks5"].(*config.TCPProxyConf)` panics when the map has no such
entry or the entry has another dynamic type; one message stands for both
run-time errors. The parameter `rootServerPort` is unused, as in the Go
code. -/
def runClient (env : Collaborators) (cfgFilePath rootServerAddr : GoString)
    (rootServerPort : Int) (rootToken : GoString) (removeIni enableAuth : Bool) :
    Trace (Option GoError) :=
  match AESCBCDecrypt rootServerAddr with
  | .panic msg => ⟨[], .panic msg⟩
  | .ret (_, _, remote_Port, _) =>
    match env.ParseClientConfig cfgFilePath remote_Port with
    | .error err => ⟨[.println err], .ret (some err)⟩
    | .ok ⟨cfg, pxyCfgs, visitorCfgs⟩ =>
      let block : List Event × Resolved :=
        if cfgFilePath = [] then
          if rootServerAddr ≠ [] then
            match AESCBCDecrypt rootServerAddr with
            | .panic msg => ([], .panicked msg)
            | .ret (ip, port, _, _) =>
              let cfg1 := { cfg with ServerAddr := ip, ServerPort := port }
              let cfg2 := if rootToken ≠ [] then { cfg1 with Token := rootToken } else cfg1
              if enableAuth then
                match pxyCfgs.lookup (str "socks5") with
                | some (.tcp conf) =>
                  let conf1 : TCPProxyConf :=
                    { conf with
                      PluginParams :=
                        [(str "plugin_user", env.RandStr 0 6),
                         (str "plugin_passwd", env.RandStr 1 12)] }
                  ([], .proceed cfg2 (pxyCfgs.set (str "socks5") (.tcp conf1)))
                | _ =>
                  ([], .panicked
                    "interface conversion: config.ProxyConf is not *config.TCPProxyConf")
              else ([], .proceed cfg2 pxyCfgs)
          else
            let err := GoError.errorf "server_addr must be specified when use default config file"
            ([.logError (str "server_addr must be specified when use default config file")],
              .returned err)
        else
          if ¬ strings.HasPrefix cfgFilePath (str "http://") ∧
              ¬ strings.HasPrefix cfgFilePath (str "https://") then
            if removeIni then
              ([.remove cfgFilePath, .logWarn [str "remove", cfgFilePath, str "success"]],
                .proceed cfg pxyCfgs)
            else ([], .proceed cfg pxyCfgs)
          else ([], .proceed cfg pxyCfgs)
      match block with
      | (evs, .returned err) => ⟨evs, .ret (some err)⟩
      | (evs, .panicked msg) => ⟨evs, .panic msg⟩
      | (evs, .proceed cfg3 pxyCfgs3) =>
        let svc := startService env cfg3 pxyCfgs3 visitorCfgs cfgFilePath
        ⟨evs ++ svc.events, svc.result⟩

/-! ## `root.go`: directory mode and the root command -/

/-- The flag-bound package variables that the root command reads. -/
structure Flags where
  cfgFile : GoString
  cfgDir : GoString
  showVersion : Bool
  rootServerAddr : GoString
  rootServerPort : Int
  rootToken : GoString
  removeIni : Bool
  enableAuth : Bool
  deriving DecidableEq, Repr

/-- The model of `filepath.WalkDir`: the callback `fn` is applied to the entries in order,
threading the state it accumulates; the walk stops at the first error the
callback returns, and that error is the result. -/
def WalkDir {σ : Type} (fn : σ → WalkEntry → σ × Option GoError) :
    List WalkEntry → σ → σ × Option GoError
  | [], st => (st, none)
  | e :: es, st =>
    match fn st e with
    | (st1, some err) => (st1, some err)
    | (st1, none) => WalkDir fn es st1

/-- The callback of `runMultipleClients` (lines 149-163): an entry with an
error or a directory is passed over, any other entry gets a worker; the
callback returns `nil` in every case. The state is the list of paths for
which a worker was started. -/
def walkFn (spawned : List GoString) (e : WalkEntry) : List GoString × Option GoError :=
  if e.err ≠ none ∨ e.isDir then (spawned, none)
  else (spawned ++ [e.path], none)

/-- The goroutine of `runMultipleClients` (lines 155-161) for one path: it
runs `runClient` and, when that returns an error, prints a line naming the
file. The error value stays local to the goroutine. -/
def worker (env : Collaborators) (flags : Flags) (path : GoString) : Trace Unit :=
  let r := runClient env path flags.rootServerAddr flags.rootServerPort flags.rootToken
    flags.removeIni flags.enableAuth
  match r.result with
  | .panic msg => ⟨r.events, .panic msg⟩
  | .ret none => ⟨r.events, .ret ()⟩
  | .ret (some _) =>
    ⟨r.events ++ [.printf (str "frpc service error for config file [" ++ path ++ str "]\n")],
      .ret ()⟩

/-- What `runMultipleClients` did: the trace of every worker (the workers run
concurrently, so no order between their events is recorded) and the way the
call ended. -/
structure MultiTrace where
  workers : List (GoString × Trace Unit)
  result : Outcome (Option GoError)
  deriving DecidableEq, Repr

/-- The message of the first worker that panicked, if any. -/
def firstPanic : List (GoString × Trace Unit) → Option String
  | [] => none
  | (_, ⟨_, .panic msg⟩) :: _ => some msg
  | (_, ⟨_, .ret _⟩) :: ws => firstPanic ws

/-- The Go function `runMultipleClients` (root.go, lines 147-166): one worker per regular
entry of the walk, a wait for all of them, then the error of the walk. A
panic inside a worker ends the program. -/
def runMultipleClients (env : Collaborators) (flags : Flags) (cfgDir : GoString) : MultiTrace :=
  let walked := WalkDir walkFn (env.walk cfgDir) []
  let workers := walked.1.map fun path => (path, worker env flags path)
  match firstPanic workers with
  | some msg => ⟨workers, .panic msg⟩
  | none => ⟨workers, .ret walked.2⟩

/-- How the root command ends: `RunE` returns, the process exits, or it panics. -/
inductive ProcessEnd
  | returned (err : Option GoError)
  | exited (code : Nat)
  | panicked (msg : String)
  deriving DecidableEq, Repr

/-- The `RunE` function of `rootCmd` (root.go, lines 125-144). -/
def rootCmd.RunE (env : Collaborators) (flags : Flags) : ProcessEnd :=
  if flags.showVersion then .returned none
  else if flags.cfgDir ≠ [] then
    match (runMultipleClients env flags flags.cfgDir).result with
    | .panic msg => .panicked msg
    | .ret _ => .returned none
  else
    match (runClient env flags.cfgFile flags.rootServerAddr flags.rootServerPort flags.rootToken
      flags.removeIni flags.enableAuth).result with
    | .panic msg => .panicked msg
    | .ret (some _) => .exited 1
    | .ret none => .returned none

/-! ## Concrete collaborators used to evaluate the code -/

/-- A client configuration as the parser might return it. -/
def sampleCfg : ClientCommonConf :=
  { ServerAddr := str "0.0.0.0", ServerPort := 7000, Token := [], Protocol := str "tcp",
    LogWay := str "console", LogFile := str "console", LogLevel := str "info",
    LogMaxDays := 3, DisableLogColor := false }

/-- Collaborators whose parser returns `sampleCfg` with no proxy at all, whose
service is constructed and whose `Run` ends with an error; the walk of any
directory visits the directory itself and one regular file. -/
def envRunFails : Collaborators :=
  { ParseClientConfig := fun _ _ => .ok ⟨sampleCfg, [], []⟩
    NewService := fun _ => none
    Run := fun _ => some (.external "login to server failed")
    RandStr := fun k n => List.replicate n (Fin.ofNat (97 + k))
    walk := fun dir => [⟨dir, true, none⟩, ⟨dir ++ str "/a.ini", false, none⟩] }

/-- Collaborators whose parser rejects every source. -/
def envParseFails : Collaborators :=
  { envRunFails with ParseClientConfig := fun _ _ => .error (.external "parse failed") }

/-- Collaborators whose parser returns a proxy set holding a TCP proxy named
`socks5`, and whose service runs to a clean stop. -/
def envSocks : Collaborators :=
  { envRunFails with
    ParseClientConfig := fun _ _ =>
      .ok ⟨sampleCfg, [(str "socks5", .tcp ⟨[], [(str "plugin", str "socks5")]⟩)], []⟩
    Run := fun _ => none }

/-- The payload of the specification's example: the base64 text of the
AES-128-CBC encryption of `203.0.113.5:7000:7001`. -/
def samplePayload : GoString := str "9ew69oNF1EG/Op0Bm3nFhmg5ASqIO7HK88S1fn3prA8="

/-- Flags of a directory-mode run over `conf`, no server-address override. -/
def sampleFlags : Flags :=
  { cfgFile := [], cfgDir := str "conf", showVersion := false, rootServerAddr := [],
    rootServerPort := 0, rootToken := [], removeIni := false, enableAuth := true }


/-! ## Theorems -/

/-! ### `PKCS7Unpad` -/

theorem getD_last (data : List Byte) (p : Byte) (h : data.getLast? = some p) :
    data.getD (data.length - 1) 0 = p := by
  cases data with
  | nil => simp at h
  | cons a l =>
    rw [List.getLast?_eq_getElem?] at h
    rw [List.getD_eq_getElem?_getD, h]
    rfl

theorem PKCS7Unpad_of_last (data : List Byte) (p : Byte) (h : data.getLast? = some p) :
    PKCS7Unpad data =
      if data.length < p.val ∨ p.val = 0 then .error (.errorf "invalid padding")
      else .ok (data.take (data.length - p.val)) := by
  have hne : data ≠ [] := by rintro rfl; simp at h
  have hlen : 0 < data.length := List.length_pos.mpr hne
  have hidx : ((data.length : Int) - 1).toNat = data.length - 1 := by omega
  unfold PKCS7Unpad
  simp only [hidx, getD_last data p h]
  have h0 : ¬ ((data.length : Int) = 0) := by omega
  rw [if_neg h0]
  by_cases hbad : data.length < p.val ∨ p.val = 0
  · rw [if_pos hbad, if_pos]
    rcases hbad with hb | hb
    · left; omega
    · right; omega
  · rw [if_neg hbad, if_neg]
    · have : ((data.length : Int) - (p.val : Int)).toNat = data.length - p.val := by omega
      rw [this]
    · omega

/-- C1. For every byte sequence `data`, `PKCS7Unpad data` is an error exactly
when `data` is empty or its last byte `p` is `0` or larger than `len(data)`;
in every other case it returns the first `len(data) - p` bytes. -/
theorem PKCS7Unpad_spec (data : List Byte) :
    ((∃ e, PKCS7Unpad data = .error e) ↔
      (data = [] ∨ ∃ p, data.getLast? = some p ∧ (p.val = 0 ∨ data.length < p.val))) ∧
    (∀ p, data.getLast? = some p → p.val ≠ 0 → p.val ≤ data.length →
      PKCS7Unpad data = .ok (data.take (data.length - p.val))) := by
  constructor
  · constructor
    · rintro ⟨e, he⟩
      cases hl : data.getLast? with
      | none => left; simpa using hl
      | some p =>
        right
        refine ⟨p, rfl, ?_⟩
        rw [PKCS7Unpad_of_last data p hl] at he
        by_cases hbad : data.length < p.val ∨ p.val = 0
        · tauto
        · rw [if_neg hbad] at he; cases he
    · rintro (rfl | ⟨p, hp, hbad⟩)
      · exact ⟨_, rfl⟩
      · rw [PKCS7Unpad_of_last data p hp, if_pos (by tauto)]
        exact ⟨_, rfl⟩
  · intro p hp h0 hle
    rw [PKCS7Unpad_of_last data p hp, if_neg]
    omega

/-- C1 at a concrete input: the block `a b c 05 05 05 05 05` loses its five
padding bytes. -/
theorem PKCS7Unpad_spec_witness :
    PKCS7Unpad [97, 98, 99, 5, 5, 5, 5, 5] = .ok [97, 98, 99] :=
  (PKCS7Unpad_spec [97, 98, 99, 5, 5, 5, 5, 5]).2 5 (by decide) (by decide) (by decide)

/-! ### `AESCBCDecrypt` on a ciphertext that is not a whole number of blocks -/

/-- C4, the code at a failing input: `"YQ=="` is valid base64 for the single
byte `a`; `CryptBlocks` panics on it, so `AESCBCDecrypt` returns nothing at
all, neither a triple nor an error. -/
theorem AESCBCDecrypt_short_ciphertext_panics :
    base64.DecodeString (str "YQ==") = .ok [97] ∧
    AESCBCDecrypt (str "YQ==") = .panic "crypto/cipher: input not full blocks" := by
  decide!

/-- Every payload whose decoded ciphertext is not a multiple of 16 bytes long
makes `AESCBCDecrypt` panic. -/
theorem AESCBCDecrypt_panics_of_partial_block (s : GoString) (ct : List Byte)
    (hdec : base64.DecodeString s = .ok ct) (hlen : ct.length % 16 ≠ 0) :
    AESCBCDecrypt s = .panic "crypto/cipher: input not full blocks" := by
  have hkey : ∃ block, aes.NewCipher (str "1234561234561234") = .ok block := ⟨_, rfl⟩
  obtain ⟨block, hblock⟩ := hkey
  have hiv : (str "1234561234561234").length = blockSize := by decide
  unfold AESCBCDecrypt
  simp only [hdec, hblock]
  unfold cipher.CBCDecrypt
  simp [hiv, blockSize, hlen]

/-! ### `startService` -/

/-- C5 as stated fails: the service is constructed, `Run` returns an error,
and `startService` returns `nil`. -/
theorem startService_drops_run_error :
    envRunFails.NewService ⟨sampleCfg, [], [], str "frpc.ini"⟩ = none ∧
    envRunFails.Run ⟨sampleCfg, [], [], str "frpc.ini"⟩ =
      some (.external "login to server failed") ∧
    (startService envRunFails sampleCfg [] [] (str "frpc.ini")).result = .ret none := by
  decide

/-- C5 amended. `startService` always returns: its result is the construction
error when `client.NewService` fails and `nil` otherwise; in the second case
`svr.Run` was called and what it returned does not reach the caller. -/
theorem startService_result (env : Collaborators) (cfg : ClientCommonConf)
    (pxyCfgs : ProxyMap) (visitorCfgs : VisitorMap) (cfgFile : GoString) :
    (startService env cfg pxyCfgs visitorCfgs cfgFile).result =
      .ret (env.NewService ⟨cfg, pxyCfgs, visitorCfgs, cfgFile⟩) ∧
    (env.NewService ⟨cfg, pxyCfgs, visitorCfgs, cfgFile⟩ = none →
      Event.run ⟨cfg, pxyCfgs, visitorCfgs, cfgFile⟩
          (env.Run ⟨cfg, pxyCfgs, visitorCfgs, cfgFile⟩) ∈
        (startService env cfg pxyCfgs visitorCfgs cfgFile).events) := by
  cases h : env.NewService ⟨cfg, pxyCfgs, visitorCfgs, cfgFile⟩ with
  | some e => simp [startService, h]
  | none => simp [startService, h]

/-- C5 amended, at a concrete input: `Run` ends with an error, the caller
gets `nil`. -/
theorem startService_result_witness :
    (startService envRunFails sampleCfg [] [] (str "frpc.ini")).result = .ret none ∧
    Event.run ⟨sampleCfg, [], [], str "frpc.ini"⟩ (some (.external "login to server failed")) ∈
      (startService envRunFails sampleCfg [] [] (str "frpc.ini")).events :=
  ⟨(startService_result envRunFails sampleCfg [] [] (str "frpc.ini")).1,
   (startService_result envRunFails sampleCfg [] [] (str "frpc.ini")).2 rfl⟩

/-! ### `runClient`: removal of the configuration file -/

theorem remove_not_mem_startService (env : Collaborators) (cfg : ClientCommonConf)
    (pxyCfgs : ProxyMap) (visitorCfgs : VisitorMap) (cfgFile p : GoString) :
    Event.remove p ∉ (startService env cfg pxyCfgs visitorCfgs cfgFile).events := by
  cases h : env.NewService ⟨cfg, pxyCfgs, visitorCfgs, cfgFile⟩ with
  | some e => simp [startService, h]
  | none =>
    by_cases hg : cfg.Protocol = str "kcp" ∨ cfg.Protocol = str "quic"
    · simp [startService, h, hg]
    · simp [startService, h, hg]

/-- The events of `runClient` up to the call of `startService`, when the
source is a file or a URL and the parse succeeded. -/
theorem runClient_of_file (env : Collaborators) (cfgFilePath rootServerAddr : GoString)
    (rootServerPort : Int) (rootToken : GoString) (removeIni enableAuth : Bool)
    (a : GoString) (b c : Int) (e : Option GoError)
    (cfg : ClientCommonConf) (pxyCfgs : ProxyMap) (visitorCfgs : VisitorMap)
    (hne : cfgFilePath ≠ [])
    (hdec : AESCBCDecrypt rootServerAddr = .ret (a, b, c, e))
    (hparse : env.ParseClientConfig cfgFilePath c = .ok ⟨cfg, pxyCfgs, visitorCfgs⟩) :
    runClient env cfgFilePath rootServerAddr rootServerPort rootToken removeIni enableAuth =
      ⟨(if ¬ strings.HasPrefix cfgFilePath (str "http://") ∧
            ¬ strings.HasPrefix cfgFilePath (str "https://") ∧ removeIni = true then
          [.remove cfgFilePath, .logWarn [str "remove", cfgFilePath, str "success"]]
        else []) ++ (startService env cfg pxyCfgs visitorCfgs cfgFilePath).events,
       (startService env cfg pxyCfgs visitorCfgs cfgFilePath).result⟩ := by
  unfold runClient
  simp only [hdec, hparse, if_neg hne]
  by_cases h1 : strings.HasPrefix cfgFilePath (str "http://") = true <;>
    by_cases h2 : strings.HasPrefix cfgFilePath (str "https://") = true <;>
    cases removeIni <;> simp [h1, h2]

/-- C9. `runClient` calls `os.Remove(cfgFilePath)` exactly when the parse of
the configuration succeeded, `cfgFilePath` is not empty, it starts with
neither `http://` nor `https://`, and `removeIni` is set; and `runClient`
removes no other path. -/
theorem runClient_remove_iff (env : Collaborators) (cfgFilePath rootServerAddr : GoString)
    (rootServerPort : Int) (rootToken : GoString) (removeIni enableAuth : Bool) :
    (Event.remove cfgFilePath ∈
        (runClient env cfgFilePath rootServerAddr rootServerPort rootToken removeIni
          enableAuth).events ↔
      ((∃ a b c e cfgs, AESCBCDecrypt rootServerAddr = .ret (a, b, c, e) ∧
          env.ParseClientConfig cfgFilePath c = .ok cfgs) ∧
        cfgFilePath ≠ [] ∧ ¬ (str "http://" <+: cfgFilePath) ∧
        ¬ (str "https://" <+: cfgFilePath) ∧ removeIni = true)) ∧
    (∀ p, Event.remove p ∈
        (runClient env cfgFilePath rootServerAddr rootServerPort rootToken removeIni
          enableAuth).events → p = cfgFilePath) := by
  have hpre : ∀ q : GoString, strings.HasPrefix cfgFilePath q = true ↔ q <+: cfgFilePath :=
    fun q => List.isPrefixOf_iff_prefix
  cases hdec : AESCBCDecrypt rootServerAddr with
  | panic msg =>
    have hrun : runClient env cfgFilePath rootServerAddr rootServerPort rootToken removeIni
        enableAuth = ⟨[], .panic msg⟩ := by
      unfold runClient; simp only [hdec]
    rw [hrun]
    simp
  | ret r =>
    obtain ⟨a, b, c, e⟩ := r
    cases hparse : env.ParseClientConfig cfgFilePath c with
    | error err =>
      have hrun : runClient env cfgFilePath rootServerAddr rootServerPort rootToken removeIni
          enableAuth = ⟨[.println err], .ret (some err)⟩ := by
        unfold runClient; simp only [hdec, hparse]
      rw [hrun]
      simp [hparse]
    | ok cfgs =>
      obtain ⟨cfg, pxyCfgs, visitorCfgs⟩ := cfgs
      by_cases hne : cfgFilePath = []
      · subst hne
        have hrun : ∀ p, Event.remove p ∉ (runClient env [] rootServerAddr rootServerPort
            rootToken removeIni enableAuth).events := by
          intro p
          have hs := remove_not_mem_startService env
          unfold runClient
          simp only [hdec, hparse, if_true]
          by_cases haddr : rootServerAddr = []
          · simp [haddr]
          · cases enableAuth
            · simp [haddr, hs]
            · cases hl : List.lookup (str "socks5") pxyCfgs with
              | none => simp [haddr, hl]
              | some v => cases v <;> simp [haddr, hl, hs]
        constructor
        · constructor
          · intro h; exact absurd h (hrun _)
          · rintro ⟨_, h, _⟩; exact absurd rfl h
        · intro p h; exact absurd h (hrun _)
      · rw [runClient_of_file env cfgFilePath rootServerAddr rootServerPort rootToken removeIni
          enableAuth a b c e cfg pxyCfgs visitorCfgs hne hdec hparse]
        have hs := remove_not_mem_startService env cfg pxyCfgs visitorCfgs cfgFilePath
        constructor
        · constructor
          · intro h
            simp only [List.mem_append] at h
            rcases h with h | h
            · split at h
              · rename_i hc
                refine ⟨⟨a, b, c, e, _, rfl, hparse⟩, hne, ?_, ?_, hc.2.2⟩
                · rw [← hpre]; exact hc.1
                · rw [← hpre]; exact hc.2.1
              · simp at h
            · exact absurd h (hs _)
          · rintro ⟨_, _, h1, h2, h3⟩
            rw [← hpre] at h1 h2
            simp [h1, h2, h3]
        · intro p h
          simp only [List.mem_append] at h
          rcases h with h | h
          · split at h
            · simpa using h
            · simp at h
          · exact absurd h (hs _)

/-- C9 at a concrete input: a local file with `removeIni` set is removed. -/
theorem runClient_remove_iff_witness :
    Event.remove (str "frpc.ini") ∈
      (runClient envRunFails (str "frpc.ini") [] 0 [] true true).events :=
  (runClient_remove_iff envRunFails (str "frpc.ini") [] 0 [] true true).1.2
    ⟨⟨[], 0, 0, some (.errorf "data is empty"), _, by decide!, rfl⟩,
      by decide, by decide, by decide, rfl⟩

/-! ### `runMultipleClients` -/

theorem WalkDir_walkFn (entries : List WalkEntry) (st : List GoString) :
    WalkDir walkFn entries st =
      (st ++ (entries.filter fun e => e.err = none ∧ e.isDir = false).map (fun e => e.path),
        none) := by
  induction entries generalizing st with
  | nil => simp [WalkDir]
  | cons e es ih =>
    rw [WalkDir]
    by_cases h : e.err ≠ none ∨ e.isDir = true
    · have hf : ¬ (e.err = none ∧ e.isDir = false) := by
        rcases h with h | h
        · exact fun hc => h hc.1
        · exact fun hc => by simp [h] at hc
      have hfn : walkFn st e = (st, none) := by simp only [walkFn, if_pos h]
      rw [hfn]
      simp only []
      rw [ih]
      simp [List.filter_cons, hf]
    · have hf : e.err = none ∧ e.isDir = false := by
        constructor
        · by_contra hc; exact h (Or.inl hc)
        · cases hd : e.isDir
          · rfl
          · exact absurd (Or.inr hd) h
      have hfn : walkFn st e = (st ++ [e.path], none) := by simp only [walkFn, if_neg h]
      rw [hfn]
      simp only []
      rw [ih]
      simp [List.filter_cons, hf]

theorem firstPanic_none (ws : List (GoString × Trace Unit))
    (h : ∀ w ∈ ws, w.2.result.returns = true) : firstPanic ws = none := by
  induction ws with
  | nil => rfl
  | cons w ws ih =>
    obtain ⟨path, evs, res⟩ := w
    cases res with
    | panic msg => exact absurd (h _ (List.mem_cons_self _ _)) (by simp [Outcome.returns])
    | ret u =>
      simp only [firstPanic]
      exact ih fun w hw => h w (List.mem_cons_of_mem _ hw)

/-- C6 as stated fails: the only worker's `runClient` returns an error and
`runMultipleClients` returns `nil`. -/
theorem runMultipleClients_nil_despite_worker_error :
    (runClient envParseFails (str "conf/a.ini") [] 0 [] false true).result =
      .ret (some (.external "parse failed")) ∧
    (runMultipleClients envParseFails sampleFlags (str "conf")).workers.map Prod.fst =
      [str "conf/a.ini"] ∧
    (runMultipleClients envParseFails sampleFlags (str "conf")).result = .ret none := by
  decide!

/-- C6 amended. `runMultipleClients` starts one worker for every entry of the
walk that is not a directory and carries no error; when no worker panics it
returns `nil`, whatever the workers' `runClient` calls returned; a worker
whose `runClient` returned an error prints the line naming its file. -/
theorem runMultipleClients_result (env : Collaborators) (flags : Flags) (cfgDir : GoString) :
    (runMultipleClients env flags cfgDir).workers.map Prod.fst =
      ((env.walk cfgDir).filter fun e => e.err = none ∧ e.isDir = false).map
        (fun e => e.path) ∧
    ((∀ w ∈ (runMultipleClients env flags cfgDir).workers, w.2.result.returns = true) →
      (runMultipleClients env flags cfgDir).result = .ret none) ∧
    (∀ w ∈ (runMultipleClients env flags cfgDir).workers, ∀ e,
      (runClient env w.1 flags.rootServerAddr flags.rootServerPort flags.rootToken
        flags.removeIni flags.enableAuth).result = .ret (some e) →
      Event.printf (str "frpc service error for config file [" ++ w.1 ++ str "]\n") ∈
        w.2.events) := by
  have hw : (runMultipleClients env flags cfgDir).workers =
      (((env.walk cfgDir).filter fun e => e.err = none ∧ e.isDir = false).map
        (fun e => e.path)).map fun path => (path, worker env flags path) := by
    unfold runMultipleClients
    simp only [WalkDir_walkFn, List.nil_append]
    split <;> rfl
  refine ⟨?_, ?_, ?_⟩
  · rw [hw]; simp [Function.comp_def]
  · intro h
    have hp := firstPanic_none _ h
    rw [hw] at hp
    unfold runMultipleClients
    simp only [WalkDir_walkFn, List.nil_append, hp]
  · intro w hmem e he
    rw [hw] at hmem
    simp only [List.mem_map] at hmem
    obtain ⟨path, _, rfl⟩ := hmem
    simp only [worker, he]
    simp

/-- C6 amended, at a concrete input: one failing worker, the result is `nil`
and the failure is printed. -/
theorem runMultipleClients_result_witness :
    (runMultipleClients envParseFails sampleFlags (str "conf")).result = .ret none ∧
    Event.printf (str "frpc service error for config file [conf/a.ini]\n") ∈
      (worker envParseFails sampleFlags (str "conf/a.ini")).events :=
  ⟨(runMultipleClients_result envParseFails sampleFlags (str "conf")).2.1 (by decide!),
   (runMultipleClients_result envParseFails sampleFlags (str "conf")).2.2
     (str "conf/a.ini", worker envParseFails sampleFlags (str "conf/a.ini")) (by decide!)
     (.external "parse failed") (by decide!)⟩

/-! ### `runClient` in default-source mode -/

/-- C3, the code at a failing input: no config file, the server address `x`
is not valid base64, authentication off. The decode error is dropped,
`startService` is entered with an empty server address and port 0, and
`runClient` returns `nil`. -/
theorem runClient_undecodable_addr_starts_service :
    AESCBCDecrypt (str "x") = .ret ([], 0, 0, some .corruptInput) ∧
    Event.startService { sampleCfg with ServerAddr := [], ServerPort := 0 } [] [] [] ∈
      (runClient envRunFails [] (str "x") 0 [] false false).events ∧
    (runClient envRunFails [] (str "x") 0 [] false false).result = .ret none := by
  decide!

/-- C10, the code at a failing input: default source, a valid payload,
authentication on, and a proxy set without `socks5`. The type assertion
panics; `startService` is not entered. -/
theorem runClient_missing_socks5_panics :
    AESCBCDecrypt samplePayload = .ret (str "203.0.113.5", 7000, 7001, none) ∧
    envRunFails.ParseClientConfig [] 7001 = .ok ⟨sampleCfg, [], []⟩ ∧
    runClient envRunFails [] samplePayload 0 [] false true =
      ⟨[], .panic "interface conversion: config.ProxyConf is not *config.TCPProxyConf"⟩ := by
  decide!

/-! ### `strconv.Atoi` -/

theorem parseUintLoop_digits (ds : List Byte) (n v : Nat)
    (h : parseUintLoop ds n = .ok v) : ∀ c ∈ ds, 48 ≤ c.val ∧ c.val ≤ 57 := by
  induction ds generalizing n with
  | nil => simp
  | cons c cs ih =>
    rw [parseUintLoop] at h
    by_cases hd : 48 ≤ c.val ∧ c.val ≤ 57
    · rw [if_neg (not_not.mpr hd)] at h
      split at h
      · cases h
      · simp only [] at h
        split at h
        · cases h
        · intro x hx
          rcases List.mem_cons.mp hx with rfl | hx
          · exact hd
          · exact ih _ h x hx
    · rw [if_pos hd] at h; cases h

theorem parseUintLoop_lt (ds : List Byte) (n v : Nat) (hn : n < 2 ^ 64)
    (h : parseUintLoop ds n = .ok v) : v < 2 ^ 64 := by
  induction ds generalizing n with
  | nil => simp only [parseUintLoop] at h; cases h; exact hn
  | cons c cs ih =>
    rw [parseUintLoop] at h
    split at h
    · cases h
    · split at h
      · cases h
      · simp only [] at h
        split at h
        · cases h
        · rename_i hle
          exact ih _ (by omega) h

/-- What `strconv.Atoi` accepts: only base-10 integer literals, and the value
it returns fits a 64-bit `int`. -/
theorem Atoi_ok (s : GoString) (v : Int) (h : strconv.Atoi s = .ok v) :
    IsBase10Int s ∧ -(2 : Int) ^ 63 ≤ v ∧ v < (2 : Int) ^ 63 := by
  cases s with
  | nil => simp [strconv.Atoi] at h
  | cons c cs =>
    simp only [strconv.Atoi] at h
    by_cases hne : (if c = 43 ∨ c = 45 then cs else c :: cs) = []
    · rw [if_pos hne] at h; cases h
    · rw [if_neg hne] at h
      cases hun : parseUintLoop (if c = 43 ∨ c = 45 then cs else c :: cs) 0 with
      | error kind => rw [hun] at h; cases h
      | ok un =>
        rw [hun] at h
        have hdig := parseUintLoop_digits _ _ _ hun
        have hlt := parseUintLoop_lt _ _ _ (by norm_num) hun
        simp only [] at h
        split at h
        · cases h
        · rename_i h1
          split at h
          · cases h
          · rename_i h2
            injection h with h
            refine ⟨⟨if c = 43 ∨ c = 45 then cs else c :: cs, hne, hdig, ?_⟩, ?_⟩
            · by_cases hc : c = 43
              · simp [hc]
              · by_cases hc2 : c = 45
                · simp [hc2]
                · simp [hc, hc2]
            · by_cases hneg : c = 45
              · simp only [hneg, decide_True, if_true] at h h2
                simp only [true_and, not_lt] at h2
                subst h
                constructor <;> omega
              · simp only [hneg, decide_False] at h h1
                simp at h1
                simp at h
                subst h
                constructor <;> omega

/-! ### `AESCBCDecrypt` after the padding has been removed -/

/-- The last part of `AESCBCDecrypt` (lines 328-343) for a payload whose
decrypted text, after unpadding, is `text`. -/
theorem AESCBCDecrypt_of_plaintext (s text : GoString)
    (htext : payloadText s = some text) :
    AESCBCDecrypt s =
      if (strings.Split text 58).length ≠ 3 then
        .ret ([], 0, 0, some (.errorf "invalid plaintext format"))
      else
        match strconv.Atoi ((strings.Split text 58).getD 1 []) with
        | .error err => .ret ([], 0, 0, some err)
        | .ok b =>
          match strconv.Atoi ((strings.Split text 58).getD 2 []) with
          | .error err => .ret ([], 0, 0, some err)
          | .ok c => .ret ((strings.Split text 58).getD 0 [], b, c, none) := by
  unfold payloadText at htext
  unfold AESCBCDecrypt
  cases hdec : base64.DecodeString s with
  | error e => simp [hdec] at htext
  | ok ct =>
    cases hkey : aes.NewCipher (str "1234561234561234") with
    | error e => simp [hdec, hkey] at htext
    | ok block =>
      cases hcbc : cipher.CBCDecrypt block (str "1234561234561234") ct with
      | panic msg => simp [hdec, hkey, hcbc] at htext
      | ret pt =>
        cases hpad : PKCS7Unpad pt with
        | error e => simp [hdec, hkey, hcbc, hpad] at htext
        | ok t =>
          simp only [hdec, hkey, hcbc, hpad, Option.some.injEq] at htext
          subst htext
          simp only [hkey, hcbc, hpad]

/-- C7. For a payload whose decrypted, validly padded text is `text`:
`AESCBCDecrypt` returns an error when `text` does not split on `:` into
exactly 3 fields, and when the second or the third field is not a base-10
integer; it returns a triple only when there are exactly 3 fields and both
port fields parse, and it does return the triple in that case. -/
theorem AESCBCDecrypt_format (s text : GoString)
    (htext : payloadText s = some text) :
    ((strings.Split text 58).length ≠ 3 →
      ∃ e, AESCBCDecrypt s = .ret ([], 0, 0, some e)) ∧
    (∀ f1 f2 f3, strings.Split text 58 = [f1, f2, f3] →
      ¬ IsBase10Int f2 ∨ ¬ IsBase10Int f3 →
      ∃ e, AESCBCDecrypt s = .ret ([], 0, 0, some e)) ∧
    (∀ a b c, AESCBCDecrypt s = .ret (a, b, c, none) →
      ∃ f2 f3, strings.Split text 58 = [a, f2, f3] ∧
        strconv.Atoi f2 = .ok b ∧ strconv.Atoi f3 = .ok c) ∧
    (∀ f1 f2 f3 b c, strings.Split text 58 = [f1, f2, f3] →
      strconv.Atoi f2 = .ok b → strconv.Atoi f3 = .ok c →
      AESCBCDecrypt s = .ret (f1, b, c, none)) := by
  have hmain := AESCBCDecrypt_of_plaintext s text htext
  refine ⟨?_, ?_, ?_, ?_⟩
  · intro hlen
    rw [hmain, if_pos hlen]
    exact ⟨_, rfl⟩
  · intro f1 f2 f3 hsplit hbad
    rw [hmain, hsplit]
    simp only [List.length_cons, List.length_nil, ne_eq, not_true_eq_false, if_false,
      List.getD_cons_succ, List.getD_cons_zero]
    cases h2 : strconv.Atoi f2 with
    | error err => exact ⟨_, rfl⟩
    | ok b =>
      cases h3 : strconv.Atoi f3 with
      | error err => exact ⟨_, rfl⟩
      | ok c =>
        rcases hbad with hb | hb
        · exact absurd (Atoi_ok f2 b h2).1 hb
        · exact absurd (Atoi_ok f3 c h3).1 hb
  · intro a b c hret
    rw [hmain] at hret
    split at hret
    · cases hret
    · rename_i hlen
      have hlen3 : (strings.Split text 58).length = 3 := by
        by_contra hc; exact hlen hc
      match hsp : strings.Split text 58, hlen3 with
      | [f1, f2, f3], _ =>
        rw [hsp] at hret
        simp only [List.getD_cons_succ, List.getD_cons_zero] at hret
        cases h2 : strconv.Atoi f2 with
        | error err => rw [h2] at hret; cases hret
        | ok b2 =>
          cases h3 : strconv.Atoi f3 with
          | error err => rw [h2, h3] at hret; cases hret
          | ok c3 =>
            rw [h2, h3] at hret
            simp only [Outcome.ret.injEq, Prod.mk.injEq, and_true] at hret
            obtain ⟨rfl, rfl, rfl⟩ := hret
            exact ⟨f2, f3, rfl, h2, h3⟩
  · intro f1 f2 f3 b c hsplit h2 h3
    rw [hmain, hsplit]
    simp [h2, h3]

/-- C7 at concrete inputs: the payloads of `a:1` (2 fields), `a:1:2:3`
(4 fields) and `a:x:2` (a port that is no integer) are rejected. -/
theorem AESCBCDecrypt_format_witness :
    (∃ e, AESCBCDecrypt (str "SABSKwjcXZeT0/pYL3Imkg==") = .ret ([], 0, 0, some e)) ∧
    (∃ e, AESCBCDecrypt (str "g017apVa39zswuuvjgnq3g==") = .ret ([], 0, 0, some e)) ∧
    (∃ e, AESCBCDecrypt (str "wwGcliGJ7eexwu2ocxJtUw==") = .ret ([], 0, 0, some e)) :=
  ⟨(AESCBCDecrypt_format (str "SABSKwjcXZeT0/pYL3Imkg==") (str "a:1") (by decide!)).1
      (by decide),
   (AESCBCDecrypt_format (str "g017apVa39zswuuvjgnq3g==") (str "a:1:2:3") (by decide!)).1
      (by decide),
   (AESCBCDecrypt_format (str "wwGcliGJ7eexwu2ocxJtUw==") (str "a:x:2") (by decide!)).2.1
      (str "a") (str "x") (str "2") (by decide) (Or.inl (by
        have hx : str "x" = [120] := by decide
        rw [hx]
        rintro ⟨digits, hne, hdig, h | h | h⟩
        · have h120 := hdig 120 (by rw [← h]; exact List.mem_singleton.mpr rfl)
          revert h120; decide
        · injection h with h1 h2
          revert h1; decide
        · injection h with h1 h2
          revert h1; decide))⟩

/-! ### Decimal rendering and `strconv.Atoi` -/

theorem digitsValue_append (ds : List Byte) (c : Byte) (m : Nat) :
    digitsValue (ds ++ [c]) m = digitsValue ds m * 10 + (c.val - 48) := by
  simp [digitsValue, List.foldl_append]

theorem digitsValue_ge (ds : List Byte) (m : Nat) : m ≤ digitsValue ds m := by
  induction ds generalizing m with
  | nil => exact Nat.le_refl _
  | cons c cs ih =>
    have h := ih (m * 10 + (c.val - 48))
    simp only [digitsValue, List.foldl_cons] at h ⊢
    omega

theorem parseUintLoop_eq_value (ds : List Byte) (m : Nat)
    (hdig : ∀ c ∈ ds, 48 ≤ c.val ∧ c.val ≤ 57) (hlt : digitsValue ds m < 2 ^ 64) :
    parseUintLoop ds m = .ok (digitsValue ds m) := by
  induction ds generalizing m with
  | nil => rfl
  | cons c cs ih =>
    have hc := hdig c (List.mem_cons_self _ _)
    have hstep : digitsValue (c :: cs) m = digitsValue cs (m * 10 + (c.val - 48)) := rfl
    have hge := digitsValue_ge cs (m * 10 + (c.val - 48))
    rw [hstep] at hlt
    rw [parseUintLoop, if_neg (not_not.mpr hc), if_neg (by omega)]
    simp only []
    rw [if_neg (by omega), hstep]
    exact ih _ (fun x hx => hdig x (List.mem_cons_of_mem _ hx)) hlt

theorem decimalAux_spec (fuel n : Nat) (acc : List Byte) (hn : n < 10 ^ (fuel + 1)) :
    ∃ ds : List Byte, decimalAux (fuel + 1) n acc = ds ++ acc ∧ ds ≠ [] ∧
      (∀ c ∈ ds, 48 ≤ c.val ∧ c.val ≤ 57) ∧ digitsValue ds 0 = n := by
  induction fuel generalizing n acc with
  | zero =>
    have hd : ((Fin.ofNat (48 + n % 10) : Byte)).val = 48 + n % 10 := by
      show (48 + n % 10) % 256 = _
      omega
    have h0 : n / 10 = 0 := by simp at hn; omega
    refine ⟨[Fin.ofNat (48 + n % 10)], ?_, by simp, ?_, ?_⟩
    · simp [decimalAux, h0]
    · intro c hc
      rw [List.mem_singleton.mp hc, hd]
      omega
    · simp only [digitsValue, List.foldl_cons, List.foldl_nil, hd]
      omega
  | succ fuel ih =>
    have hd : ((Fin.ofNat (48 + n % 10) : Byte)).val = 48 + n % 10 := by
      show (48 + n % 10) % 256 = _
      omega
    rw [decimalAux]
    by_cases h0 : n / 10 = 0
    · rw [if_pos h0]
      refine ⟨[Fin.ofNat (48 + n % 10)], rfl, by simp, ?_, ?_⟩
      · intro c hc
        rw [List.mem_singleton.mp hc, hd]
        omega
      · simp only [digitsValue, List.foldl_cons, List.foldl_nil, hd]
        omega
    · rw [if_neg h0]
      have hn' : n / 10 < 10 ^ (fuel + 1) := by
        rw [Nat.pow_succ] at hn
        omega
      obtain ⟨ds, hds, hne, hdig, hval⟩ := ih (n / 10) (Fin.ofNat (48 + n % 10) :: acc) hn'
      refine ⟨ds ++ [Fin.ofNat (48 + n % 10)], ?_, by simp, ?_, ?_⟩
      · rw [hds]; simp
      · intro c hc
        rcases List.mem_append.mp hc with hc | hc
        · exact hdig c hc
        · rw [List.mem_singleton.mp hc, hd]
          omega
      · rw [digitsValue_append, hval, hd]
        omega

theorem decimal_spec (n : Nat) :
    decimal n ≠ [] ∧ (∀ c ∈ decimal n, 48 ≤ c.val ∧ c.val ≤ 57) ∧
      digitsValue (decimal n) 0 = n := by
  have hn : n < 10 ^ (n + 1) :=
    Nat.lt_trans (Nat.lt_succ_self n) (Nat.lt_pow_self (a := 10) (by norm_num) (n + 1))
  obtain ⟨ds, hds, hne, hdig, hval⟩ := decimalAux_spec n n [] hn
  have : decimal n = ds := by rw [decimal, hds]; simp
  rw [this]
  exact ⟨hne, hdig, hval⟩

/-- The function `strconv.Atoi` reads back the decimal rendering of a natural number that
fits an `int`. -/
theorem Atoi_decimal (n : Nat) (hn : n < 2 ^ 63) : strconv.Atoi (decimal n) = .ok (n : Int) := by
  obtain ⟨hne, hdig, hval⟩ := decimal_spec n
  have hparse : parseUintLoop (decimal n) 0 = .ok n := by
    have := parseUintLoop_eq_value (decimal n) 0 hdig (by rw [hval]; omega)
    rw [this, hval]
  cases hd : decimal n with
  | nil => exact absurd hd hne
  | cons c cs =>
    rw [hd] at hparse hdig
    have hc := hdig c (List.mem_cons_self _ _)
    have h43 : c ≠ 43 := by rintro rfl; revert hc; decide
    have h45 : c ≠ 45 := by rintro rfl; revert hc; decide
    simp only [strconv.Atoi, h43, h45, or_self, if_false, hparse]
    simp
    omega

/-- The function `strconv.Atoi` accepts a minus sign: the decimal rendering of `n` after
`-` reads as `-n`. -/
theorem Atoi_neg_decimal (n : Nat) (hn : n ≤ 2 ^ 63) :
    strconv.Atoi (45 :: decimal n) = .ok (-(n : Int)) := by
  obtain ⟨hne, hdig, hval⟩ := decimal_spec n
  have hparse : parseUintLoop (decimal n) 0 = .ok n := by
    have := parseUintLoop_eq_value (decimal n) 0 hdig (by rw [hval]; omega)
    rw [this, hval]
  have hsign : (45 : Byte) = 43 ∨ (45 : Byte) = 45 := Or.inr rfl
  have hcut : ¬ (n > 2 ^ 63) := by omega
  simp only [strconv.Atoi, if_pos hsign, if_neg hne, hparse]
  simp [hcut, hne, hparse]
  omega

/-! ### `AESCBCDecrypt`: the sign of the port fields -/

/-- C8 as stated fails: the payload of `a:-1:2` is accepted and decodes to
the port `-1`. -/
theorem AESCBCDecrypt_accepts_negative_port :
    payloadText (str "vrjoDMXI+9G9tq/bbtEi6Q==") = some (str "a:-1:2") ∧
    AESCBCDecrypt (str "vrjoDMXI+9G9tq/bbtEi6Q==") = .ret (str "a", -1, 2, none) := by
  decide!

/-- C8 amended. For a payload whose validly padded text has exactly the 3
fields `f1:f2:f3`, `AESCBCDecrypt` returns a nil error exactly when
`strconv.Atoi` accepts both port fields; the returned ports are then the
values `Atoi` gave, each field is an optionally signed string of decimal
digits, and each value lies in `[-2^63, 2^63 - 1]`. Negative values are
accepted: `Atoi` reads `-` followed by the decimal digits of any
`n ≤ 2^63` as `-n`. -/
theorem AESCBCDecrypt_ports (s text f1 f2 f3 : GoString)
    (htext : payloadText s = some text)
    (hsplit : strings.Split text 58 = [f1, f2, f3]) :
    ((∃ a b c, AESCBCDecrypt s = .ret (a, b, c, none)) ↔
      ∃ b c, strconv.Atoi f2 = .ok b ∧ strconv.Atoi f3 = .ok c) ∧
    (∀ a b c, AESCBCDecrypt s = .ret (a, b, c, none) →
      a = f1 ∧ strconv.Atoi f2 = .ok b ∧ strconv.Atoi f3 = .ok c ∧
      IsBase10Int f2 ∧ IsBase10Int f3 ∧
      -(2 : Int) ^ 63 ≤ b ∧ b < (2 : Int) ^ 63 ∧ -(2 : Int) ^ 63 ≤ c ∧ c < (2 : Int) ^ 63) ∧
    (∀ n : Nat, n ≤ 2 ^ 63 → strconv.Atoi (45 :: decimal n) = .ok (-(n : Int))) := by
  have hmain := AESCBCDecrypt_of_plaintext s text htext
  rw [hsplit] at hmain
  simp only [List.length_cons, List.length_nil, ne_eq, not_true_eq_false, if_false,
    List.getD_cons_succ, List.getD_cons_zero] at hmain
  have hval : ∀ a b c, AESCBCDecrypt s = .ret (a, b, c, none) →
      a = f1 ∧ strconv.Atoi f2 = .ok b ∧ strconv.Atoi f3 = .ok c := by
    intro a b c hret
    rw [hmain] at hret
    cases h2 : strconv.Atoi f2 with
    | error err => rw [h2] at hret; cases hret
    | ok b2 =>
      cases h3 : strconv.Atoi f3 with
      | error err => rw [h2, h3] at hret; cases hret
      | ok c3 =>
        rw [h2, h3] at hret
        simp only [Outcome.ret.injEq, Prod.mk.injEq, and_true] at hret
        obtain ⟨rfl, rfl, rfl⟩ := hret
        exact ⟨rfl, rfl, rfl⟩
  refine ⟨⟨?_, ?_⟩, ?_, fun n hn => Atoi_neg_decimal n hn⟩
  · rintro ⟨a, b, c, hret⟩
    exact ⟨b, c, (hval a b c hret).2⟩
  · rintro ⟨b, c, h2, h3⟩
    exact ⟨f1, b, c, by rw [hmain, h2, h3]⟩
  · intro a b c hret
    obtain ⟨ha, h2, h3⟩ := hval a b c hret
    have hb := Atoi_ok f2 b h2
    have hc := Atoi_ok f3 c h3
    exact ⟨ha, h2, h3, hb.1, hc.1, hb.2.1, hb.2.2, hc.2.1, hc.2.2⟩

/-- C8 amended, at a concrete input: the payload of `a:-1:2`. -/
theorem AESCBCDecrypt_ports_witness :
    ∃ a b c, AESCBCDecrypt (str "vrjoDMXI+9G9tq/bbtEi6Q==") = .ret (a, b, c, none) :=
  (AESCBCDecrypt_ports (str "vrjoDMXI+9G9tq/bbtEi6Q==") (str "a:-1:2") (str "a") (str "-1")
    (str "2") (by decide!) (by decide)).1.2 ⟨-1, 2, by decide, by decide⟩

/-! ### `encoding/base64`: decoding inverts encoding -/

theorem b64Value_b64Char : ∀ v, v < 64 → b64Value (b64Char v) = some v := by
  decide

theorem b64Char_ne_pad : ∀ v, v < 64 → b64Char v ≠ b64Pad := by
  decide

theorem b64Char_not_newline : ∀ v, v < 64 → b64Char v ≠ 13 ∧ b64Char v ≠ 10 := by
  decide

theorem byte_ofNat_eq (a : Byte) (n : Nat) (h : n % 256 = a.val) : (Fin.ofNat n : Byte) = a :=
  Fin.ext h

theorem decodeQuanta_encode : ∀ bs : List Byte,
    decodeQuanta (base64.EncodeToString bs) = some bs
  | [] => rfl
  | [a] => by
    have ha := a.isLt
    simp only [base64.EncodeToString, decodeQuanta,
      b64Value_b64Char (a.val / 4) (by omega), b64Value_b64Char (a.val % 4 * 16) (by omega),
      if_true, and_self]
    congr 2
    exact byte_ofNat_eq _ _ (by omega)
  | [a, b] => by
    have ha := a.isLt
    have hb := b.isLt
    simp only [base64.EncodeToString, decodeQuanta,
      b64Value_b64Char (a.val / 4) (by omega),
      b64Value_b64Char (a.val % 4 * 16 + b.val / 16) (by omega),
      b64Value_b64Char (b.val % 16 * 4) (by omega),
      if_neg (b64Char_ne_pad (b.val % 16 * 4) (by omega)), if_true]
    congr 2
    · exact byte_ofNat_eq _ _ (by omega)
    · congr 1
      exact byte_ofNat_eq _ _ (by omega)
  | a :: b :: c :: rest => by
    have ha := a.isLt
    have hb := b.isLt
    have hc := c.isLt
    have ih := decodeQuanta_encode rest
    simp only [base64.EncodeToString, decodeQuanta,
      b64Value_b64Char (a.val / 4) (by omega),
      b64Value_b64Char (a.val % 4 * 16 + b.val / 16) (by omega),
      b64Value_b64Char (b.val % 16 * 4 + c.val / 64) (by omega),
      b64Value_b64Char (c.val % 64) (by omega),
      if_neg (b64Char_ne_pad (b.val % 16 * 4 + c.val / 64) (by omega)),
      if_neg (b64Char_ne_pad (c.val % 64) (by omega)), ih]
    congr 2
    · exact byte_ofNat_eq _ _ (by omega)
    · congr 1
      · exact byte_ofNat_eq _ _ (by omega)
      · congr 1
        exact byte_ofNat_eq _ _ (by omega)

theorem encode_no_newline : ∀ bs : List Byte,
    ∀ c ∈ base64.EncodeToString bs, c ≠ 13 ∧ c ≠ 10
  | [] => by simp [base64.EncodeToString]
  | [a] => by
    have ha := a.isLt
    intro c hc
    simp only [base64.EncodeToString, List.mem_cons, List.mem_singleton, List.not_mem_nil,
      or_false] at hc
    rcases hc with rfl | rfl | rfl | rfl
    · exact b64Char_not_newline _ (by omega)
    · exact b64Char_not_newline _ (by omega)
    · decide
    · decide
  | [a, b] => by
    have ha := a.isLt
    have hb := b.isLt
    intro c hc
    simp only [base64.EncodeToString, List.mem_cons, List.mem_singleton, List.not_mem_nil,
      or_false] at hc
    rcases hc with rfl | rfl | rfl | rfl
    · exact b64Char_not_newline _ (by omega)
    · exact b64Char_not_newline _ (by omega)
    · exact b64Char_not_newline _ (by omega)
    · decide
  | a :: b :: c :: rest => by
    have ha := a.isLt
    have hb := b.isLt
    have hc := c.isLt
    have ih := encode_no_newline rest
    intro x hx
    simp only [base64.EncodeToString, List.mem_cons] at hx
    rcases hx with rfl | rfl | rfl | rfl | hx
    · exact b64Char_not_newline _ (by omega)
    · exact b64Char_not_newline _ (by omega)
    · exact b64Char_not_newline _ (by omega)
    · exact b64Char_not_newline _ (by omega)
    · exact ih x hx

/-- The decoder `base64.StdEncoding.DecodeString` inverts `EncodeToString`. -/
theorem DecodeString_EncodeToString (bs : List Byte) :
    base64.DecodeString (base64.EncodeToString bs) = .ok bs := by
  have hf : (base64.EncodeToString bs).filter (fun c => c ≠ 13 ∧ c ≠ 10) =
      base64.EncodeToString bs := by
    rw [List.filter_eq_self]
    intro c hc
    simpa using encode_no_newline bs c hc
  unfold base64.DecodeString
  rw [hf, decodeQuanta_encode]

/-! ### GF(2^8) arithmetic of `MixColumns` -/

theorem Byte.xor_val (a b : Byte) : (a ^^^ b).val = a.val ^^^ b.val := by
  show (a.val ^^^ b.val) % 256 = _
  exact Nat.mod_eq_of_lt (Nat.xor_lt_two_pow (n := 8) a.isLt b.isLt)

theorem Byte.xor_self (a : Byte) : a ^^^ a = 0 := by
  apply Fin.ext; rw [Byte.xor_val]; simp

theorem Byte.xor_zero (a : Byte) : a ^^^ 0 = a := by
  apply Fin.ext; rw [Byte.xor_val]; simp

theorem Byte.xor_xor_cancel (a k : Byte) : (a ^^^ k) ^^^ k = a := by
  apply Fin.ext
  rw [Byte.xor_val, Byte.xor_val, Nat.xor_assoc, Nat.xor_self, Nat.xor_zero]

theorem xtimeNat_lt (x : Nat) : xtimeNat x < 256 := by
  unfold xtimeNat
  apply Nat.xor_lt_two_pow (n := 8)
  · omega
  · split <;> decide

theorem dbl_xor (x y : Nat) :
    (2 * (x ^^^ y)) % 256 = ((2 * x) % 256) ^^^ ((2 * y) % 256) := by
  have e : ∀ z, 2 * z = z <<< 1 := fun z => by simp [Nat.shiftLeft_eq, Nat.mul_comm]
  have e2 : (256 : Nat) = 2 ^ 8 := by norm_num
  rw [e, e, e, e2]
  apply Nat.eq_of_testBit_eq
  intro i
  simp only [Nat.testBit_mod_two_pow, Nat.testBit_xor, Nat.testBit_shiftLeft]
  cases decide (i < 8) <;> cases decide (i ≥ 1) <;> simp

theorem hi_xor (x y : Nat) :
    ((x ^^^ y) / 128 % 2 = 1) ↔ ¬ ((x / 128 % 2 = 1) ↔ (y / 128 % 2 = 1)) := by
  have hdiv : (x ^^^ y) / 128 = (x / 128) ^^^ (y / 128) := by
    have e : ∀ z, z / 128 = z >>> 7 := fun z => by simp [Nat.shiftRight_eq_div_pow]
    simp only [e]
    apply Nat.eq_of_testBit_eq
    intro i
    simp [Nat.testBit_shiftRight, Nat.testBit_xor]
  rw [hdiv]
  exact Nat.xor_mod_two_eq_one

theorem xtimeNat_xor (x y : Nat) : xtimeNat (x ^^^ y) = xtimeNat x ^^^ xtimeNat y := by
  unfold xtimeNat
  rw [dbl_xor]
  by_cases hx : x / 128 % 2 = 1 <;> by_cases hy : y / 128 % 2 = 1 <;>
    simp only [hi_xor, hx, hy, if_true, if_false, iff_true, iff_false, not_true,
      not_false_eq_true, true_iff, false_iff, Nat.xor_zero, iff_self]
  · generalize 2 * x % 256 = a; generalize 2 * y % 256 = b
    have hswap : a ^^^ 27 ^^^ (b ^^^ 27) = (a ^^^ b) ^^^ (27 ^^^ 27) := by ac_rfl
    rw [hswap]; simp
  · ac_rfl
  · ac_rfl

theorem xtime_val (x : Byte) : (xtime x).val = xtimeNat x.val := by
  show xtimeNat x.val % 256 = _
  exact Nat.mod_eq_of_lt (xtimeNat_lt _)

theorem xtime_xor (x y : Byte) : xtime (x ^^^ y) = xtime x ^^^ xtime y := by
  apply Fin.ext
  simp only [xtime_val, Byte.xor_val, xtimeNat_xor]

theorem mul3_xor (x y : Byte) : mul3 (x ^^^ y) = mul3 x ^^^ mul3 y := by
  apply Fin.ext
  simp only [mul3, xtime_xor, Byte.xor_val]
  ac_rfl

theorem mul9_xor (x y : Byte) : mul9 (x ^^^ y) = mul9 x ^^^ mul9 y := by
  apply Fin.ext
  simp only [mul9, xtime_xor, Byte.xor_val]
  ac_rfl

theorem mul11_xor (x y : Byte) : mul11 (x ^^^ y) = mul11 x ^^^ mul11 y := by
  apply Fin.ext
  simp only [mul11, xtime_xor, Byte.xor_val]
  ac_rfl

theorem mul13_xor (x y : Byte) : mul13 (x ^^^ y) = mul13 x ^^^ mul13 y := by
  apply Fin.ext
  simp only [mul13, xtime_xor, Byte.xor_val]
  ac_rfl

theorem mul14_xor (x y : Byte) : mul14 (x ^^^ y) = mul14 x ^^^ mul14 y := by
  apply Fin.ext
  simp only [mul14, xtime_xor, Byte.xor_val]
  ac_rfl

/-- The product of the first row of the inverse matrix with each column of
the `MixColumns` matrix: `0e·02 + 0b + 0d + 09·03 = 01` and the three sums
that vanish. -/
theorem mix_coeff_one : ∀ x : Byte,
    mul14 (xtime x) ^^^ mul11 x ^^^ mul13 x ^^^ mul9 (mul3 x) = x := by
  decide!

theorem mix_coeff_zero1 : ∀ x : Byte,
    mul14 (mul3 x) ^^^ mul11 (xtime x) ^^^ mul13 x ^^^ mul9 x = 0 := by
  decide!

theorem mix_coeff_zero2 : ∀ x : Byte,
    mul14 x ^^^ mul11 (mul3 x) ^^^ mul13 (xtime x) ^^^ mul9 x = 0 := by
  decide!

theorem mix_coeff_zero3 : ∀ x : Byte,
    mul14 x ^^^ mul11 x ^^^ mul13 (mul3 x) ^^^ mul9 (xtime x) = 0 := by
  decide!

theorem sbox_inv : ∀ x : Byte, invSbox (sbox x) = x := by
  decide!

/-! ### `InvMixColumns` inverts `MixColumns` -/

theorem invMix_first (a b c d : Byte) :
    mul14 (xtime a ^^^ mul3 b ^^^ c ^^^ d) ^^^
      mul11 (a ^^^ xtime b ^^^ mul3 c ^^^ d) ^^^
      mul13 (a ^^^ b ^^^ xtime c ^^^ mul3 d) ^^^
      mul9 (mul3 a ^^^ b ^^^ c ^^^ xtime d) = a := by
  apply Fin.ext
  simp only [mul9_xor, mul11_xor, mul13_xor, mul14_xor, Byte.xor_val]
  have ha : (mul14 (xtime a)).val ^^^ (mul11 a).val ^^^ (mul13 a).val ^^^ (mul9 (mul3 a)).val = a.val := by
    have h := congrArg Fin.val (mix_coeff_one a)
    simp only [Byte.xor_val] at h
    refine Eq.trans ?_ h
    ac_rfl
  have hb : (mul14 (mul3 b)).val ^^^ (mul11 (xtime b)).val ^^^ (mul13 b).val ^^^ (mul9 b).val = 0 := by
    have h := congrArg Fin.val (mix_coeff_zero1 b)
    simp only [Byte.xor_val] at h
    refine Eq.trans ?_ h
    ac_rfl
  have hc : (mul14 c).val ^^^ (mul11 (mul3 c)).val ^^^ (mul13 (xtime c)).val ^^^ (mul9 c).val = 0 := by
    have h := congrArg Fin.val (mix_coeff_zero2 c)
    simp only [Byte.xor_val] at h
    refine Eq.trans ?_ h
    ac_rfl
  have hd : (mul14 d).val ^^^ (mul11 d).val ^^^ (mul13 (mul3 d)).val ^^^ (mul9 (xtime d)).val = 0 := by
    have h := congrArg Fin.val (mix_coeff_zero3 d)
    simp only [Byte.xor_val] at h
    refine Eq.trans ?_ h
    ac_rfl
  refine Eq.trans (b := ((mul14 (xtime a)).val ^^^ (mul11 a).val ^^^ (mul13 a).val ^^^ (mul9 (mul3 a)).val) ^^^
      ((mul14 (mul3 b)).val ^^^ (mul11 (xtime b)).val ^^^ (mul13 b).val ^^^ (mul9 b).val) ^^^
      ((mul14 c).val ^^^ (mul11 (mul3 c)).val ^^^ (mul13 (xtime c)).val ^^^ (mul9 c).val) ^^^
      ((mul14 d).val ^^^ (mul11 d).val ^^^ (mul13 (mul3 d)).val ^^^ (mul9 (xtime d)).val)) ?_ ?_
  · ac_rfl
  · rw [ha, hb, hc, hd]; simp

theorem invMix_second (a b c d : Byte) :
    mul9 (xtime a ^^^ mul3 b ^^^ c ^^^ d) ^^^
      mul14 (a ^^^ xtime b ^^^ mul3 c ^^^ d) ^^^
      mul11 (a ^^^ b ^^^ xtime c ^^^ mul3 d) ^^^
      mul13 (mul3 a ^^^ b ^^^ c ^^^ xtime d) = b := by
  apply Fin.ext
  simp only [mul9_xor, mul11_xor, mul13_xor, mul14_xor, Byte.xor_val]
  have ha : (mul9 (xtime a)).val ^^^ (mul14 a).val ^^^ (mul11 a).val ^^^ (mul13 (mul3 a)).val = 0 := by
    have h := congrArg Fin.val (mix_coeff_zero3 a)
    simp only [Byte.xor_val] at h
    refine Eq.trans ?_ h
    ac_rfl
  have hb : (mul9 (mul3 b)).val ^^^ (mul14 (xtime b)).val ^^^ (mul11 b).val ^^^ (mul13 b).val = b.val := by
    have h := congrArg Fin.val (mix_coeff_one b)
    simp only [Byte.xor_val] at h
    refine Eq.trans ?_ h
    ac_rfl
  have hc : (mul9 c).val ^^^ (mul14 (mul3 c)).val ^^^ (mul11 (xtime c)).val ^^^ (mul13 c).val = 0 := by
    have h := congrArg Fin.val (mix_coeff_zero1 c)
    simp only [Byte.xor_val] at h
    refine Eq.trans ?_ h
    ac_rfl
  have hd : (mul9 d).val ^^^ (mul14 d).val ^^^ (mul11 (mul3 d)).val ^^^ (mul13 (xtime d)).val = 0 := by
    have h := congrArg Fin.val (mix_coeff_zero2 d)
    simp only [Byte.xor_val] at h
    refine Eq.trans ?_ h
    ac_rfl
  refine Eq.trans (b := ((mul9 (xtime a)).val ^^^ (mul14 a).val ^^^ (mul11 a).val ^^^ (mul13 (mul3 a)).val) ^^^
      ((mul9 (mul3 b)).val ^^^ (mul14 (xtime b)).val ^^^ (mul11 b).val ^^^ (mul13 b).val) ^^^
      ((mul9 c).val ^^^ (mul14 (mul3 c)).val ^^^ (mul11 (xtime c)).val ^^^ (mul13 c).val) ^^^
      ((mul9 d).val ^^^ (mul14 d).val ^^^ (mul11 (mul3 d)).val ^^^ (mul13 (xtime d)).val)) ?_ ?_
  · ac_rfl
  · rw [ha, hb, hc, hd]; simp

theorem invMix_third (a b c d : Byte) :
    mul13 (xtime a ^^^ mul3 b ^^^ c ^^^ d) ^^^
      mul9 (a ^^^ xtime b ^^^ mul3 c ^^^ d) ^^^
      mul14 (a ^^^ b ^^^ xtime c ^^^ mul3 d) ^^^
      mul11 (mul3 a ^^^ b ^^^ c ^^^ xtime d) = c := by
  apply Fin.ext
  simp only [mul9_xor, mul11_xor, mul13_xor, mul14_xor, Byte.xor_val]
  have ha : (mul13 (xtime a)).val ^^^ (mul9 a).val ^^^ (mul14 a).val ^^^ (mul11 (mul3 a)).val = 0 := by
    have h := congrArg Fin.val (mix_coeff_zero2 a)
    simp only [Byte.xor_val] at h
    refine Eq.trans ?_ h
    ac_rfl
  have hb : (mul13 (mul3 b)).val ^^^ (mul9 (xtime b)).val ^^^ (mul14 b).val ^^^ (mul11 b).val = 0 := by
    have h := congrArg Fin.val (mix_coeff_zero3 b)
    simp only [Byte.xor_val] at h
    refine Eq.trans ?_ h
    ac_rfl
  have hc : (mul13 c).val ^^^ (mul9 (mul3 c)).val ^^^ (mul14 (xtime c)).val ^^^ (mul11 c).val = c.val := by
    have h := congrArg Fin.val (mix_coeff_one c)
    simp only [Byte.xor_val] at h
    refine Eq.trans ?_ h
    ac_rfl
  have hd : (mul13 d).val ^^^ (mul9 d).val ^^^ (mul14 (mul3 d)).val ^^^ (mul11 (xtime d)).val = 0 := by
    have h := congrArg Fin.val (mix_coeff_zero1 d)
    simp only [Byte.xor_val] at h
    refine Eq.trans ?_ h
    ac_rfl
  refine Eq.trans (b := ((mul13 (xtime a)).val ^^^ (mul9 a).val ^^^ (mul14 a).val ^^^ (mul11 (mul3 a)).val) ^^^
      ((mul13 (mul3 b)).val ^^^ (mul9 (xtime b)).val ^^^ (mul14 b).val ^^^ (mul11 b).val) ^^^
      ((mul13 c).val ^^^ (mul9 (mul3 c)).val ^^^ (mul14 (xtime c)).val ^^^ (mul11 c).val) ^^^
      ((mul13 d).val ^^^ (mul9 d).val ^^^ (mul14 (mul3 d)).val ^^^ (mul11 (xtime d)).val)) ?_ ?_
  · ac_rfl
  · rw [ha, hb, hc, hd]; simp

theorem invMix_fourth (a b c d : Byte) :
    mul11 (xtime a ^^^ mul3 b ^^^ c ^^^ d) ^^^
      mul13 (a ^^^ xtime b ^^^ mul3 c ^^^ d) ^^^
      mul9 (a ^^^ b ^^^ xtime c ^^^ mul3 d) ^^^
      mul14 (mul3 a ^^^ b ^^^ c ^^^ xtime d) = d := by
  apply Fin.ext
  simp only [mul9_xor, mul11_xor, mul13_xor, mul14_xor, Byte.xor_val]
  have ha : (mul11 (xtime a)).val ^^^ (mul13 a).val ^^^ (mul9 a).val ^^^ (mul14 (mul3 a)).val = 0 := by
    have h := congrArg Fin.val (mix_coeff_zero1 a)
    simp only [Byte.xor_val] at h
    refine Eq.trans ?_ h
    ac_rfl
  have hb : (mul11 (mul3 b)).val ^^^ (mul13 (xtime b)).val ^^^ (mul9 b).val ^^^ (mul14 b).val = 0 := by
    have h := congrArg Fin.val (mix_coeff_zero2 b)
    simp only [Byte.xor_val] at h
    refine Eq.trans ?_ h
    ac_rfl
  have hc : (mul11 c).val ^^^ (mul13 (mul3 c)).val ^^^ (mul9 (xtime c)).val ^^^ (mul14 c).val = 0 := by
    have h := congrArg Fin.val (mix_coeff_zero3 c)
    simp only [Byte.xor_val] at h
    refine Eq.trans ?_ h
    ac_rfl
  have hd : (mul11 d).val ^^^ (mul13 d).val ^^^ (mul9 (mul3 d)).val ^^^ (mul14 (xtime d)).val = d.val := by
    have h := congrArg Fin.val (mix_coeff_one d)
    simp only [Byte.xor_val] at h
    refine Eq.trans ?_ h
    ac_rfl
  refine Eq.trans (b := ((mul11 (xtime a)).val ^^^ (mul13 a).val ^^^ (mul9 a).val ^^^ (mul14 (mul3 a)).val) ^^^
      ((mul11 (mul3 b)).val ^^^ (mul13 (xtime b)).val ^^^ (mul9 b).val ^^^ (mul14 b).val) ^^^
      ((mul11 c).val ^^^ (mul13 (mul3 c)).val ^^^ (mul9 (xtime c)).val ^^^ (mul14 c).val) ^^^
      ((mul11 d).val ^^^ (mul13 d).val ^^^ (mul9 (mul3 d)).val ^^^ (mul14 (xtime d)).val)) ?_ ?_
  · ac_rfl
  · rw [ha, hb, hc, hd]; simp

/-! ### The inverse cipher inverts the cipher -/

theorem length_sixteen (s : List Byte) (h : s.length = 16) :
    ∃ a0 a1 a2 a3 a4 a5 a6 a7 a8 a9 a10 a11 a12 a13 a14 a15 : Byte,
      s = [a0, a1, a2, a3, a4, a5, a6, a7, a8, a9, a10, a11, a12, a13, a14, a15] := by
  match s, h with
  | [a0, a1, a2, a3, a4, a5, a6, a7, a8, a9, a10, a11, a12, a13, a14, a15], _ =>
    exact ⟨a0, a1, a2, a3, a4, a5, a6, a7, a8, a9, a10, a11, a12, a13, a14, a15, rfl⟩

theorem xorBytes_length (s k : List Byte) (h : k.length = s.length) :
    (xorBytes s k).length = s.length := by
  simp [xorBytes, h]

theorem xorBytes_cancel : ∀ (s k : List Byte), k.length = s.length →
    xorBytes (xorBytes s k) k = s
  | [], _, _ => by simp [xorBytes]
  | a :: s, [], h => by simp at h
  | a :: s, b :: k, h => by
    have ih := xorBytes_cancel s k (by simpa using h)
    simp only [xorBytes, List.zipWith_cons_cons] at ih ⊢
    rw [ih, Byte.xor_xor_cancel]

theorem addRoundKey_length (k s : List Byte) (hk : k.length = 16) (hs : s.length = 16) :
    (addRoundKey k s).length = 16 := by
  rw [addRoundKey, xorBytes_length s k (by rw [hk, hs]), hs]

theorem addRoundKey_cancel (k s : List Byte) (hk : k.length = 16) (hs : s.length = 16) :
    addRoundKey k (addRoundKey k s) = s :=
  xorBytes_cancel s k (by rw [hk, hs])

theorem subBytes_length (s : List Byte) : (subBytes s).length = s.length := by
  simp [subBytes]

theorem invSubBytes_subBytes (s : List Byte) : invSubBytes (subBytes s) = s := by
  simp [invSubBytes, subBytes, Function.comp_def, sbox_inv]

theorem shiftRows_length (s : List Byte) (hs : s.length = 16) : (shiftRows s).length = 16 := by
  obtain ⟨a0, a1, a2, a3, a4, a5, a6, a7, a8, a9, a10, a11, a12, a13, a14, a15, rfl⟩ :=
    length_sixteen s hs
  rfl

theorem invShiftRows_shiftRows (s : List Byte) (hs : s.length = 16) :
    invShiftRows (shiftRows s) = s := by
  obtain ⟨a0, a1, a2, a3, a4, a5, a6, a7, a8, a9, a10, a11, a12, a13, a14, a15, rfl⟩ :=
    length_sixteen s hs
  rfl

theorem mixColumns_length (s : List Byte) (hs : s.length = 16) : (mixColumns s).length = 16 := by
  obtain ⟨a0, a1, a2, a3, a4, a5, a6, a7, a8, a9, a10, a11, a12, a13, a14, a15, rfl⟩ :=
    length_sixteen s hs
  rfl

theorem invMixColumns_mixColumns (s : List Byte) (hs : s.length = 16) :
    invMixColumns (mixColumns s) = s := by
  obtain ⟨a0, a1, a2, a3, a4, a5, a6, a7, a8, a9, a10, a11, a12, a13, a14, a15, rfl⟩ :=
    length_sixteen s hs
  simp only [mixColumns, mixColumn, invMixColumns, invMixColumn, List.cons_append,
    List.nil_append, List.append_nil, invMix_first, invMix_second, invMix_third, invMix_fourth]

theorem encRound_length (st k : List Byte) (hk : k.length = 16) (hs : st.length = 16) :
    (encRound st k).length = 16 :=
  addRoundKey_length k _ hk
    (mixColumns_length _ (shiftRows_length _ (by rw [subBytes_length, hs])))

theorem decRound_encRound_step (u k : List Byte) (hk : k.length = 16) (hu : u.length = 16) :
    decRound (shiftRows (subBytes (encRound u k))) k = shiftRows (subBytes u) := by
  have h1 : (subBytes u).length = 16 := by rw [subBytes_length, hu]
  have h2 := shiftRows_length _ h1
  have h3 := mixColumns_length _ h2
  have h4 : (subBytes (encRound u k)).length = 16 := by
    rw [subBytes_length]; exact encRound_length u k hk hu
  unfold decRound
  rw [invShiftRows_shiftRows _ h4, invSubBytes_subBytes]
  unfold encRound
  rw [addRoundKey_cancel k _ hk h3, invMixColumns_mixColumns _ h2]

theorem foldl_encRound_length (mid : List (List Byte)) (t : List Byte)
    (hmid : ∀ k ∈ mid, k.length = 16) (ht : t.length = 16) :
    (mid.foldl encRound t).length = 16 := by
  induction mid generalizing t with
  | nil => exact ht
  | cons k ks ih =>
    exact ih _ (fun x hx => hmid x (List.mem_cons_of_mem _ hx))
      (encRound_length t k (hmid k (List.mem_cons_self _ _)) ht)

theorem rounds_inverse (mid : List (List Byte)) (t : List Byte)
    (hmid : ∀ k ∈ mid, k.length = 16) (ht : t.length = 16) :
    mid.reverse.foldl decRound (shiftRows (subBytes (mid.foldl encRound t))) =
      shiftRows (subBytes t) := by
  induction mid using List.reverseRecOn generalizing t with
  | nil => rfl
  | append_singleton m k ih =>
    have hk : k.length = 16 := hmid k (by simp)
    have hm : ∀ x ∈ m, x.length = 16 := fun x hx => hmid x (by simp [hx])
    have hu := foldl_encRound_length m t hm ht
    rw [List.foldl_append, List.reverse_append]
    simp only [List.foldl_cons, List.foldl_nil, List.reverse_cons, List.reverse_nil,
      List.nil_append, List.singleton_append]
    rw [decRound_encRound_step _ k hk hu]
    exact ih t hm ht

theorem encryptBlock_length (rks : List (List Byte)) (s : List Byte) (hne : rks ≠ [])
    (hk : ∀ k ∈ rks, k.length = 16) (hs : s.length = 16) :
    (encryptBlock rks s).length = 16 := by
  have hhead : (rks.headD []).length = 16 := by
    cases rks with
    | nil => exact absurd rfl hne
    | cons k ks => exact hk k (List.mem_cons_self _ _)
  have hlast : (rks.getLastD []).length = 16 := by
    cases rks with
    | nil => exact absurd rfl hne
    | cons k ks =>
      rw [List.getLastD_cons]
      exact hk _ (List.getLastD_mem_cons _ _)
  have hmid : ∀ k ∈ rks.tail.dropLast, k.length = 16 := fun k hkm =>
    hk k (List.mem_of_mem_tail (List.dropLast_subset _ hkm))
  unfold encryptBlock
  simp only []
  have h0 := addRoundKey_length _ s hhead hs
  have h1 := foldl_encRound_length _ _ hmid h0
  exact addRoundKey_length _ _ hlast (shiftRows_length _ (by rw [subBytes_length, h1]))

/-- The inverse cipher undoes the cipher on every 16-byte block, for every
list of 16-byte round keys. -/
theorem decryptBlock_encryptBlock (rks : List (List Byte)) (s : List Byte) (hne : rks ≠ [])
    (hk : ∀ k ∈ rks, k.length = 16) (hs : s.length = 16) :
    decryptBlock rks (encryptBlock rks s) = s := by
  have hhead : (rks.headD []).length = 16 := by
    cases rks with
    | nil => exact absurd rfl hne
    | cons k ks => exact hk k (List.mem_cons_self _ _)
  have hlast : (rks.getLastD []).length = 16 := by
    cases rks with
    | nil => exact absurd rfl hne
    | cons k ks =>
      rw [List.getLastD_cons]
      exact hk _ (List.getLastD_mem_cons _ _)
  have hmid : ∀ k ∈ rks.tail.dropLast, k.length = 16 := fun k hkm =>
    hk k (List.mem_of_mem_tail (List.dropLast_subset _ hkm))
  have h0 := addRoundKey_length _ s hhead hs
  have h1 := foldl_encRound_length _ _ hmid h0
  have h2 : (shiftRows (subBytes ((rks.tail.dropLast).foldl encRound
      (addRoundKey (rks.headD []) s)))).length = 16 :=
    shiftRows_length _ (by rw [subBytes_length, h1])
  unfold decryptBlock encryptBlock
  simp only []
  rw [addRoundKey_cancel _ _ hlast h2, rounds_inverse _ _ hmid h0,
    invShiftRows_shiftRows _ (by rw [subBytes_length, h0]), invSubBytes_subBytes,
    addRoundKey_cancel _ _ hhead hs]

/-! ### CBC mode, padding and splitting -/

theorem cbcEncryptBlocks_length (rks : List (List Byte)) (hne : rks ≠ [])
    (hk : ∀ k ∈ rks, k.length = 16) :
    ∀ (n : Nat) (prev src : List Byte), prev.length = 16 → src.length = 16 * n →
      (cbcEncryptBlocks rks n prev src).length = 16 * n
  | 0, _, _, _, _ => rfl
  | n + 1, prev, src, hprev, hsrc => by
    have hp : (src.take blockSize).length = 16 := by
      simp only [blockSize, List.length_take]; omega
    have hx : (xorBytes (src.take blockSize) prev).length = 16 := by
      rw [xorBytes_length _ _ (by rw [hprev, hp]), hp]
    have hc := encryptBlock_length rks _ hne hk hx
    have hrest : (src.drop blockSize).length = 16 * n := by
      simp only [blockSize, List.length_drop]; omega
    have ih := cbcEncryptBlocks_length rks hne hk n _ (src.drop blockSize) hc hrest
    simp only [cbcEncryptBlocks, List.length_append, hc, ih]
    omega

theorem cbc_roundtrip (rks : List (List Byte)) (hne : rks ≠ [])
    (hk : ∀ k ∈ rks, k.length = 16) :
    ∀ (n : Nat) (prev src : List Byte), prev.length = 16 → src.length = 16 * n →
      cbcDecryptBlocks rks n prev (cbcEncryptBlocks rks n prev src) = src
  | 0, _, src, _, hsrc => by
    have : src = [] := List.length_eq_zero.mp (by omega)
    simp [cbcDecryptBlocks, this]
  | n + 1, prev, src, hprev, hsrc => by
    have hp : (src.take blockSize).length = 16 := by
      simp only [blockSize, List.length_take]; omega
    have hx : (xorBytes (src.take blockSize) prev).length = 16 := by
      rw [xorBytes_length _ _ (by rw [hprev, hp]), hp]
    have hc := encryptBlock_length rks _ hne hk hx
    have hrest : (src.drop blockSize).length = 16 * n := by
      simp only [blockSize, List.length_drop]; omega
    have ih := cbc_roundtrip rks hne hk n
      (encryptBlock rks (xorBytes (src.take blockSize) prev)) (src.drop blockSize) hc hrest
    have htake : ∀ rest : List Byte,
        (encryptBlock rks (xorBytes (src.take blockSize) prev) ++ rest).take blockSize =
          encryptBlock rks (xorBytes (src.take blockSize) prev) := by
      intro rest
      rw [List.take_append_of_le_length (by rw [hc]; decide), List.take_of_length_le]
      rw [hc]; decide
    have hdrop : ∀ rest : List Byte,
        (encryptBlock rks (xorBytes (src.take blockSize) prev) ++ rest).drop blockSize =
          rest := by
      intro rest
      exact List.drop_left' (by rw [hc]; rfl)
    simp only [cbcDecryptBlocks, cbcEncryptBlocks, htake, hdrop, ih]
    rw [decryptBlock_encryptBlock rks _ hne hk hx,
      xorBytes_cancel _ _ (by rw [hprev, hp]), List.take_append_drop]

theorem PKCS7Pad_length (data : List Byte) :
    (PKCS7Pad data).length = 16 * (data.length / 16 + 1) := by
  simp only [PKCS7Pad, blockSize, List.length_append, List.length_replicate]
  omega

/-- Unpadding inverts PKCS#7 padding. -/
theorem PKCS7Unpad_PKCS7Pad (data : List Byte) : PKCS7Unpad (PKCS7Pad data) = .ok data := by
  have hp1 : 1 ≤ 16 - data.length % 16 := by omega
  have hp2 : 16 - data.length % 16 ≤ 16 := by omega
  have hval : ((Fin.ofNat (16 - data.length % 16) : Byte)).val = 16 - data.length % 16 := by
    show (16 - data.length % 16) % 256 = _
    omega
  have hlast : (PKCS7Pad data).getLast? = some (Fin.ofNat (16 - data.length % 16)) := by
    simp only [PKCS7Pad, blockSize]
    obtain ⟨m, hm⟩ : ∃ m, 16 - data.length % 16 = m + 1 := ⟨16 - data.length % 16 - 1, by omega⟩
    rw [hm, List.replicate_succ', ← List.append_assoc, List.getLast?_append]
    simp
  rw [PKCS7Unpad_of_last _ _ hlast, hval, if_neg]
  · congr 1
    simp only [PKCS7Pad, blockSize, List.length_append, List.length_replicate]
    rw [Nat.add_sub_cancel, List.take_left']
    rfl
  · simp only [PKCS7Pad, blockSize, List.length_append, List.length_replicate]
    omega

theorem Split_no_sep (x : GoString) (sep : Byte) (h : sep ∉ x) : strings.Split x sep = [x] := by
  induction x with
  | nil => rfl
  | cons c cs ih =>
    have hc : c ≠ sep := fun e => h (by simp [e])
    have hcs : sep ∉ cs := fun e => h (List.mem_cons_of_mem _ e)
    simp [strings.Split, hc, ih hcs]

theorem Split_append_sep (x rest : GoString) (sep : Byte) (h : sep ∉ x) :
    strings.Split (x ++ sep :: rest) sep = x :: strings.Split rest sep := by
  induction x with
  | nil => simp [strings.Split]
  | cons c cs ih =>
    have hc : c ≠ sep := fun e => h (by simp [e])
    have hcs : sep ∉ cs := fun e => h (List.mem_cons_of_mem _ e)
    simp [strings.Split, hc, ih hcs]

theorem decimal_no_colon (n : Nat) : (58 : Byte) ∉ decimal n := by
  intro h
  have := (decimal_spec n).2.1 58 h
  revert this
  decide

theorem fixedKey_block :
    ∃ block, aes.NewCipher (str "1234561234561234") = .ok block ∧ block ≠ [] ∧
      ∀ k ∈ block, k.length = 16 := by
  refine ⟨_, rfl, ?_, ?_⟩ <;> decide!

/-- Decrypting the payload the specification's producer makes for a plaintext
recovers that plaintext. -/
theorem payloadText_specEncryptPayload (plaintext : GoString) :
    payloadText (specEncryptPayload plaintext) = some plaintext := by
  obtain ⟨block, hblock, hne, hk⟩ := fixedKey_block
  have hiv : (str "1234561234561234").length = 16 := by decide
  have hlen := PKCS7Pad_length plaintext
  have hdiv : (PKCS7Pad plaintext).length / blockSize = plaintext.length / 16 + 1 := by
    rw [hlen]; simp only [blockSize]; omega
  have henc := cbcEncryptBlocks_length block hne hk _ (str "1234561234561234")
    (PKCS7Pad plaintext) hiv hlen
  unfold payloadText specEncryptPayload
  simp only [hblock, DecodeString_EncodeToString]
  unfold cipher.CBCDecrypt cipher.CBCEncrypt
  rw [hdiv, henc]
  have hmod : 16 * (plaintext.length / 16 + 1) % blockSize = 0 := by
    simp only [blockSize]; omega
  have hq : 16 * (plaintext.length / 16 + 1) / blockSize = plaintext.length / 16 + 1 := by
    simp only [blockSize]; omega
  have hiv2 : ¬ ((str "1234561234561234").length ≠ blockSize) := by
    rw [hiv]; decide
  rw [if_neg hiv2, if_neg (by rw [hmod]; simp), hq]
  simp only [cbc_roundtrip block hne hk _ _ _ hiv hlen, PKCS7Unpad_PKCS7Pad]

/-! ### `AESCBCDecrypt`: the round trip -/

/-- C2 as stated fails for an address that contains a colon: the payload of
`::1:7000:7001` (address `::1`, ports 7000 and 7001) is rejected. -/
theorem AESCBCDecrypt_rejects_colon_address :
    specEncryptPayload (str "::1" ++ 58 :: decimal 7000 ++ 58 :: decimal 7001) =
      str "vdrZ54Io8vYMjzF8gCMw8w==" ∧
    AESCBCDecrypt (specEncryptPayload (str "::1" ++ 58 :: decimal 7000 ++ 58 :: decimal 7001)) =
      .ret ([], 0, 0, some (.errorf "invalid plaintext format")) := by
  decide!

/-- C2 amended. For every address that contains no colon and all ports
`port`, `auxiliaryPort` in `[0, 65535]`, `AESCBCDecrypt` applied to the
payload of `<address>:<port>:<auxiliaryPort>` returns
`(address, port, auxiliaryPort)` and a nil error. -/
theorem AESCBCDecrypt_roundtrip (address : GoString) (port auxiliaryPort : Nat)
    (haddr : (58 : Byte) ∉ address) (hport : port ≤ 65535) (haux : auxiliaryPort ≤ 65535) :
    AESCBCDecrypt
        (specEncryptPayload (address ++ 58 :: decimal port ++ 58 :: decimal auxiliaryPort)) =
      .ret (address, (port : Int), (auxiliaryPort : Int), none) := by
  have htext := payloadText_specEncryptPayload
    (address ++ 58 :: decimal port ++ 58 :: decimal auxiliaryPort)
  have hsplit : strings.Split (address ++ 58 :: decimal port ++ 58 :: decimal auxiliaryPort) 58 =
      [address, decimal port, decimal auxiliaryPort] := by
    have e : address ++ 58 :: decimal port ++ 58 :: decimal auxiliaryPort =
        address ++ 58 :: (decimal port ++ 58 :: decimal auxiliaryPort) := by simp
    rw [e, Split_append_sep _ _ _ haddr, Split_append_sep _ _ _ (decimal_no_colon port),
      Split_no_sep _ _ (decimal_no_colon auxiliaryPort)]
  rw [AESCBCDecrypt_of_plaintext _ _ htext, hsplit]
  simp only [List.length_cons, List.length_nil, ne_eq, not_true_eq_false, if_false,
    List.getD_cons_succ, List.getD_cons_zero]
  rw [Atoi_decimal port (by omega), Atoi_decimal auxiliaryPort (by omega)]

/-- C2 amended, at the specification's example: the payload of
`203.0.113.5:7000:7001` decodes to `("203.0.113.5", 7000, 7001)`. -/
theorem AESCBCDecrypt_roundtrip_witness :
    AESCBCDecrypt
        (specEncryptPayload (str "203.0.113.5" ++ 58 :: decimal 7000 ++ 58 :: decimal 7001)) =
      .ret (str "203.0.113.5", 7000, 7001, none) :=
  AESCBCDecrypt_roundtrip (str "203.0.113.5") 7000 7001 (by decide) (by decide) (by decide)

/-- The specification's example, evaluated: the plaintext
`203.0.113.5:7000:7001` has the payload `9ew6...rA8=` (the text `openssl`
produces for it), and `AESCBCDecrypt` decodes that payload to the triple. -/
theorem AESCBCDecrypt_example :
    str "203.0.113.5" ++ 58 :: decimal 7000 ++ 58 :: decimal 7001 =
      str "203.0.113.5:7000:7001" ∧
    specEncryptPayload (str "203.0.113.5:7000:7001") = samplePayload ∧
    AESCBCDecrypt samplePayload = .ret (str "203.0.113.5", 7000, 7001, none) := by
  decide!

/-! ### Further properties of `root.go` -/

/-- The panic of a partial block, at the payload `YQ==` (one byte). -/
theorem AESCBCDecrypt_panics_of_partial_block_witness :
    AESCBCDecrypt (str "YQ==") = .panic "crypto/cipher: input not full blocks" :=
  AESCBCDecrypt_panics_of_partial_block (str "YQ==") [97] (by decide!) (by decide)

theorem startService_mem_startService (env : Collaborators) (cfg : ClientCommonConf)
    (pxyCfgs : ProxyMap) (visitorCfgs : VisitorMap) (cfgFile : GoString) :
    Event.startService cfg pxyCfgs visitorCfgs cfgFile ∈
      (startService env cfg pxyCfgs visitorCfgs cfgFile).events := by
  cases h : env.NewService ⟨cfg, pxyCfgs, visitorCfgs, cfgFile⟩ with
  | some e => simp [startService, h]
  | none => simp [startService, h]

/-- Default-source mode without a server address: `runClient` returns a
non-nil error (the parse error, or `server_addr must be specified when use
default config file`) and `startService` is not entered. -/
theorem runClient_empty_addr (env : Collaborators) (rootServerPort : Int)
    (rootToken : GoString) (removeIni enableAuth : Bool) :
    (∃ e, (runClient env [] [] rootServerPort rootToken removeIni enableAuth).result =
      .ret (some e)) ∧
    (∀ cfg pxyCfgs visitorCfgs cfgFile, Event.startService cfg pxyCfgs visitorCfgs cfgFile ∉
      (runClient env [] [] rootServerPort rootToken removeIni enableAuth).events) := by
  have hdec : AESCBCDecrypt [] = .ret ([], 0, 0, some (.errorf "data is empty")) := by decide!
  cases hparse : env.ParseClientConfig [] 0 with
  | error err =>
    have hrun : runClient env [] [] rootServerPort rootToken removeIni enableAuth =
        ⟨[.println err], .ret (some err)⟩ := by
      unfold runClient; simp only [hdec, hparse]
    rw [hrun]
    exact ⟨⟨err, rfl⟩, by simp⟩
  | ok cfgs =>
    obtain ⟨cfg, pxyCfgs, visitorCfgs⟩ := cfgs
    have hrun : runClient env [] [] rootServerPort rootToken removeIni enableAuth =
        ⟨[.logError (str "server_addr must be specified when use default config file")],
          .ret (some (.errorf "server_addr must be specified when use default config file"))⟩ := by
      unfold runClient; simp [hdec, hparse]
    rw [hrun]
    exact ⟨⟨_, rfl⟩, by simp⟩

theorem set_cons (k name : GoString) (x v : ProxyConf) (es : ProxyMap) :
    ProxyMap.set ((k, x) :: es) name v =
      (if k = name then (k, v) else (k, x)) :: ProxyMap.set es name v := rfl

theorem lookup_set_self (m : ProxyMap) (name : GoString) (v w : ProxyConf)
    (h : m.lookup name = some w) : (m.set name v).lookup name = some v := by
  induction m with
  | nil => simp at h
  | cons e es ih =>
    obtain ⟨k, x⟩ := e
    rw [set_cons]
    by_cases hk : k = name
    · rw [if_pos hk, hk]
      simp [List.lookup]
    · have hb : (name == k) = false := by
        simpa using fun e : name = k => hk e.symm
      rw [if_neg hk]
      simp only [List.lookup, hb] at h ⊢
      exact ih h

theorem lookup_set_other (m : ProxyMap) (name other : GoString) (v : ProxyConf)
    (h : other ≠ name) : (m.set name v).lookup other = m.lookup other := by
  induction m with
  | nil => rfl
  | cons e es ih =>
    obtain ⟨k, x⟩ := e
    rw [set_cons]
    by_cases hk : k = name
    · have hb : (other == k) = false := by
        rw [hk]; simpa using h
      rw [if_pos hk]
      simp only [List.lookup, hb]
      exact ih
    · rw [if_neg hk]
      simp only [List.lookup]
      cases other == k
      · exact ih
      · rfl

/-- Default-source mode with authentication on and a TCP proxy named `socks5`:
whatever the payload decodes to, `runClient` ends as `startService` does on
the decoded address and port, the token override, and a proxy set in which
`socks5` carries exactly the two drawn credentials (`plugin_user` from
`RandStr(6)`, `plugin_passwd` from `RandStr(12)`) and every other entry is
unchanged. -/
theorem runClient_injects_credentials (env : Collaborators) (payload : GoString)
    (rootServerPort : Int) (rootToken : GoString) (removeIni : Bool)
    (ip : GoString) (port aux : Int) (e : Option GoError)
    (cfg : ClientCommonConf) (pxyCfgs : ProxyMap) (visitorCfgs : VisitorMap)
    (conf : TCPProxyConf)
    (hne : payload ≠ [])
    (hdec : AESCBCDecrypt payload = .ret (ip, port, aux, e))
    (hparse : env.ParseClientConfig [] aux = .ok ⟨cfg, pxyCfgs, visitorCfgs⟩)
    (hsocks : pxyCfgs.lookup (str "socks5") = some (.tcp conf)) :
    ∃ pxyCfgs1 : ProxyMap,
      runClient env [] payload rootServerPort rootToken removeIni true =
        startService env
          { cfg with ServerAddr := ip, ServerPort := port,
                     Token := if rootToken ≠ [] then rootToken else cfg.Token }
          pxyCfgs1 visitorCfgs [] ∧
      pxyCfgs1.lookup (str "socks5") =
        some (.tcp { conf with
          PluginParams := [(str "plugin_user", env.RandStr 0 6),
                           (str "plugin_passwd", env.RandStr 1 12)] }) ∧
      (∀ name, name ≠ str "socks5" → pxyCfgs1.lookup name = pxyCfgs.lookup name) := by
  refine ⟨pxyCfgs.set (str "socks5") (.tcp { conf with
      PluginParams := [(str "plugin_user", env.RandStr 0 6),
                       (str "plugin_passwd", env.RandStr 1 12)] }), ?_,
    lookup_set_self _ _ _ _ hsocks, fun name h => lookup_set_other _ _ _ _ h⟩
  unfold runClient
  simp only [hdec, hparse, hsocks, if_true, hne, ne_eq, not_false_eq_true]
  by_cases ht : rootToken = []
  · simp [ht]
  · simp [ht]

/-- The injection at a concrete input: the specification's payload, a proxy
set with a TCP `socks5`, and the token `t`. -/
theorem runClient_injects_credentials_witness :
    ∃ pxyCfgs1 : ProxyMap,
      runClient envSocks [] samplePayload 0 (str "t") false true =
        startService envSocks
          { sampleCfg with ServerAddr := str "203.0.113.5", ServerPort := 7000,
                           Token := if str "t" ≠ [] then str "t" else sampleCfg.Token }
          pxyCfgs1 [] [] ∧
      pxyCfgs1.lookup (str "socks5") =
        some (.tcp { (⟨[], [(str "plugin", str "socks5")]⟩ : TCPProxyConf) with
          PluginParams := [(str "plugin_user", envSocks.RandStr 0 6),
                           (str "plugin_passwd", envSocks.RandStr 1 12)] }) ∧
      (∀ name, name ≠ str "socks5" → pxyCfgs1.lookup name =
        List.lookup name [(str "socks5", ProxyConf.tcp ⟨[], [(str "plugin", str "socks5")]⟩)]) :=
  runClient_injects_credentials envSocks samplePayload 0 (str "t") false
    (str "203.0.113.5") 7000 7001 none sampleCfg _ [] ⟨[], [(str "plugin", str "socks5")]⟩
    (by decide) (by decide!) rfl (by decide)

/-- The signal watcher of `startService`: `go handleTermSignal(svr)` is
executed exactly when the service was constructed and the protocol is `kcp`
or `quic`. -/
theorem startService_watcher_iff (env : Collaborators) (cfg : ClientCommonConf)
    (pxyCfgs : ProxyMap) (visitorCfgs : VisitorMap) (cfgFile : GoString) :
    Event.goHandleTermSignal ⟨cfg, pxyCfgs, visitorCfgs, cfgFile⟩ ∈
        (startService env cfg pxyCfgs visitorCfgs cfgFile).events ↔
      (env.NewService ⟨cfg, pxyCfgs, visitorCfgs, cfgFile⟩ = none ∧
        (cfg.Protocol = str "kcp" ∨ cfg.Protocol = str "quic")) := by
  cases h : env.NewService ⟨cfg, pxyCfgs, visitorCfgs, cfgFile⟩ with
  | some e => simp [startService, h]
  | none =>
    by_cases hg : cfg.Protocol = str "kcp" ∨ cfg.Protocol = str "quic"
    · simp [startService, h, hg]
    · simp [startService, h, hg]

/-- The root command never hands an error back to cobra: `RunE` returns
`nil`, or the process exits with status 1, or it panics; in single-source
mode the exit happens exactly when `runClient` returned an error. -/
theorem RunE_result (env : Collaborators) (flags : Flags) :
    (∀ e, rootCmd.RunE env flags ≠ .returned (some e)) ∧
    (flags.showVersion = false → flags.cfgDir = [] →
      (rootCmd.RunE env flags = .exited 1 ↔
        ∃ e, (runClient env flags.cfgFile flags.rootServerAddr flags.rootServerPort
          flags.rootToken flags.removeIni flags.enableAuth).result = .ret (some e))) := by
  constructor
  · intro e
    unfold rootCmd.RunE
    split
    · simp
    · split
      · split <;> simp
      · split <;> simp
  · intro hv hd
    unfold rootCmd.RunE
    simp only [hv, hd, Bool.false_eq_true, if_false, ne_eq, not_true_eq_false]
    split
    · rename_i h; simp [h]
    · rename_i h; simp [h]
    · rename_i h; simp [h]

/-- The single-source exit at a concrete input: a parse failure ends the
process with status 1. -/
theorem RunE_result_witness :
    rootCmd.RunE envParseFails { sampleFlags with cfgDir := [] } = .exited 1 :=
  ((RunE_result envParseFails { sampleFlags with cfgDir := [] }).2 rfl rfl).2
    ⟨.external "parse failed", by decide!⟩

end Frpc
